import Mathlib

/-!
Verification of the core slab-allocator engine of `slab-alloc`
(`src/slab-alloc/src/lib.rs`), shallowly embedded in Lean 4.

The embedding models the `SizedSlabAlloc` state machine: the freelist of
slabs (partial slabs first, fully-free slabs last), the counters
`total_slabs`, `num_full` and `refcnt`, and the working-set driven slab
reclamation.  A slab is modelled abstractly by an identifier together with
its current number of free object slots; object pointers are modelled by
the identifier of the slab the object lives in (which slot of the slab is
used is irrelevant to every property proved here).

Helper modules of the crate that are not part of the provided source
(`util::list`, `util::workingset`, `util::misc`, `init`) are modelled from
the specification; each such definition carries a doc comment saying so.
-/

/-- `WORKING_PERIOD_SECONDS` constant from `lib.rs` (line 104). -/
def WORKING_PERIOD_SECONDS : Nat := 15

/-- `OBJECTS_PER_SLAB` constant from `lib.rs` (line 105). -/
def OBJECTS_PER_SLAB : Nat := 8

/-- A slab as seen by the sized allocator: an identity (standing for the
slab's address) and the current number of free object slots
(`free_count` in the slab header). -/
structure Slab where
  id : Nat
  free : Nat
deriving DecidableEq, Repr

/-- The identifiers of a list of slabs. -/
def slabIds (l : List Slab) : List Nat := l.map Slab.id

/-- Modelled from the spec: `util::workingset::WorkingSet` (module `util`
is not under `src/`).  Tracks the minimum value observed for `num_full`
during the current window, together with the time the window began. -/
structure WorkingSet where
  minSeen : Nat
  windowStart : Nat
deriving DecidableEq, Repr

/-- Modelled from the spec: `WorkingSet::new` begins a window with the
given initial minimum at the given time. -/
def WorkingSet.new (v : Nat) (now : Nat) : WorkingSet := ⟨v, now⟩

/-- Modelled from the spec: `update_min(v)` records `min(current_min, v)`. -/
def WorkingSet.update_min (ws : WorkingSet) (v : Nat) : WorkingSet :=
  ⟨Nat.min ws.minSeen v, ws.windowStart⟩

/-- Modelled from the spec: `set(v)` begins/resets a window with initial
minimum `v`. -/
def WorkingSet.set (ws : WorkingSet) (v : Nat) (now : Nat) : WorkingSet :=
  ⟨v, now⟩

/-- Modelled from the spec: `refresh(window_seconds)`: if at least
`window_seconds` have elapsed since the window began, returns the minimum
observed during that window and starts a new window; otherwise returns
"not yet" and leaves the tracker unchanged. -/
def WorkingSet.refresh (ws : WorkingSet) (window : Nat) (now : Nat) :
    Option Nat × WorkingSet :=
  if ws.windowStart + window ≤ now then (some ws.minSeen, ⟨ws.minSeen, now⟩)
  else (none, ws)

/-- State of `SizedSlabAlloc` (`lib.rs` lines 469-480).  The intrusive
doubly-linked freelist (`util::list`, not under `src/`, modelled from the
spec as a Lean list, front first).  `unlinked` is the model's bookkeeping
for live slabs that are currently empty (no free slots) and therefore in
no list at all in the real code; the model needs it so that `dealloc` can
recover such a slab's free count, exactly as the slab family recovers the
header from an object pointer. -/
structure SizedSlabAlloc where
  freelist : List Slab
  unlinked : List Slab
  total_slabs : Nat
  num_full : Nat
  refcnt : Nat
  full_slab_working_set : WorkingSet
  nextId : Nat
deriving DecidableEq, Repr

/-- `SizedSlabAlloc::new` (`lib.rs` lines 483-494): empty freelist, zero
counters, working set seeded with 0. -/
def SizedSlabAlloc.new (now : Nat) : SizedSlabAlloc :=
  ⟨[], [], 0, 0, 0, WorkingSet.new 0 now, 0⟩

/-- Result of `SizedSlabAlloc::alloc`: either `Err(Exhausted)` (carrying
the — unchanged — state) or `Ok(ptr)` (the pointer is modelled by the id
of the slab the returned object lives in). -/
inductive AllocResult where
  | exhausted (st : SizedSlabAlloc)
  | ok (ptr : Nat) (st : SizedSlabAlloc)
deriving DecidableEq, Repr

/-- Body of `SizedSlabAlloc::alloc` after the freelist has been made
nonempty (`lib.rs` lines 504-517): the freelist is `s :: rest`.  If the
head slab is fully free, `num_full` is decremented and the working set is
told the new minimum.  Then one object is taken from the head slab
(`free_count` drops by one); if the slab is now empty it is unlinked from
the freelist.  Finally `refcnt` is incremented. -/
def allocBody (N : Nat) (s : Slab) (rest : List Slab) (st : SizedSlabAlloc) :
    Nat × SizedSlabAlloc :=
  let nf := if s.free = N then st.num_full - 1 else st.num_full
  let ws := if s.free = N then st.full_slab_working_set.update_min (st.num_full - 1)
            else st.full_slab_working_set
  let s' : Slab := ⟨s.id, s.free - 1⟩
  let fl := if s'.free = 0 then rest else s' :: rest
  let unl := if s'.free = 0 then s' :: st.unlinked else st.unlinked
  (s.id, { st with freelist := fl, unlinked := unl, num_full := nf,
                   full_slab_working_set := ws, refcnt := st.refcnt + 1 })

/-- `SizedSlabAlloc::alloc` (`lib.rs` lines 496-518).  `canAlloc` models
whether the slab family (backed by the backing allocator) can provide a
new slab; when the freelist is empty and it cannot, the call returns
`Exhausted` with the state untouched.  When the freelist is empty and it
can, `alloc_slab` (lines 524-536) links a fresh fully-free slab (its
`free_count` is the objects-per-slab capacity `N`) at the back of the
(empty) freelist and bumps `total_slabs` and `num_full`. -/
def SizedSlabAlloc.alloc (N : Nat) (canAlloc : Bool) (st : SizedSlabAlloc) :
    AllocResult :=
  match st.freelist with
  | [] =>
    if canAlloc then
      let fresh : Slab := ⟨st.nextId, N⟩
      let st1 := { st with freelist := [fresh], total_slabs := st.total_slabs + 1,
                           num_full := st.num_full + 1, nextId := st.nextId + 1 }
      let r := allocBody N fresh [] st1
      .ok r.1 r.2
    else .exhausted st
  | s :: rest =>
    let r := allocBody N s rest st
    .ok r.1 r.2

/-- One step of the reclamation loop's list surgery: `remove_back` of the
intrusive freelist (modelled from the spec; `util::list` is not under
`src/`). -/
def removeBack (l : List Slab) : Option (Slab × List Slab) :=
  match l.getLast? with
  | none => none
  | some s => some (s, l.dropLast)

/-- The `for _ in 0..min_full` loop of `garbage_collect_slabs`
(`lib.rs` lines 576-581): repeatedly remove the freelist tail and return
it to the slab family.  Returns the remaining freelist together with the
released slabs in chronological order, or `none` if a `remove_back` ever
finds an empty list (which in the real code would be undefined
behaviour). -/
def gcLoop : Nat → List Slab → Option (List Slab × List Slab)
  | 0, l => some (l, [])
  | k + 1, l =>
    match removeBack l with
    | none => none
    | some (s, l') =>
      match gcLoop k l' with
      | none => none
      | some (rem, rel) => some (rem, s :: rel)

/-- `SizedSlabAlloc::garbage_collect_slabs` (`lib.rs` lines 573-584).
Calls `refresh` on the working set; if a window closed with minimum
`min_full`, removes `min_full` slabs from the freelist tail, returning
each to the slab family and decrementing `total_slabs` and `num_full`,
then reseeds the working set with the new `num_full`.  The second
component of the result is the list of slabs returned to the family. -/
def garbage_collect_slabs (now : Nat) (st : SizedSlabAlloc) :
    Option (SizedSlabAlloc × List Slab) :=
  match st.full_slab_working_set.refresh WORKING_PERIOD_SECONDS now with
  | (none, ws') => some ({ st with full_slab_working_set := ws' }, [])
  | (some min_full, ws') =>
    match gcLoop min_full st.freelist with
    | none => none
    | some (rem, rel) =>
      let nf := st.num_full - min_full
      some ({ st with freelist := rem,
                      total_slabs := st.total_slabs - min_full,
                      num_full := nf,
                      full_slab_working_set := ws'.set nf now }, rel)

/-- `SizedSlabAlloc::dealloc` (`lib.rs` lines 538-571).  The freed object
is identified by the id of its slab; the slab family recovers the slab
and reports `was_empty` (its `free_count` was 0 before the free) while
incrementing the free count.  The slab is then re-linked according to the
`(was_empty, is_full)` table, `num_full` is incremented and
`garbage_collect_slabs` run when the slab is now fully free, and `refcnt`
is decremented.  `none` models undefined behaviour in the real code: a
foreign or double-freed pointer, a linked-while-empty or unlinked-while-
nonempty slab (both impossible, see the invariant), or an underflowing
reclamation loop.  The second component of the result is the list of
slabs released to the family by reclamation. -/
def SizedSlabAlloc.dealloc (N : Nat) (now : Nat) (id : Nat)
    (st : SizedSlabAlloc) : Option (SizedSlabAlloc × List Slab) :=
  match st.freelist.find? (fun t => t.id == id) with
  | some s =>
    if s.free = 0 then none
    else if s.free + 1 = N then
      let st1 := { st with
        freelist := (st.freelist.eraseP (fun t => t.id == id)) ++ [⟨id, N⟩],
        num_full := st.num_full + 1 }
      match garbage_collect_slabs now st1 with
      | none => none
      | some (st2, rel) => some ({ st2 with refcnt := st2.refcnt - 1 }, rel)
    else if s.free + 1 < N then
      some ({ st with
        freelist := st.freelist.map (fun t => if t.id == id then ⟨id, s.free + 1⟩ else t),
        refcnt := st.refcnt - 1 }, [])
    else none
  | none =>
    match st.unlinked.find? (fun t => t.id == id) with
    | some s =>
      if s.free ≠ 0 then none
      else
        let unl := st.unlinked.eraseP (fun t => t.id == id)
        if 1 = N then
          let st1 := { st with unlinked := unl,
                               freelist := st.freelist ++ [⟨id, 1⟩],
                               num_full := st.num_full + 1 }
          match garbage_collect_slabs now st1 with
          | none => none
          | some (st2, rel) => some ({ st2 with refcnt := st2.refcnt - 1 }, rel)
        else if 1 < N then
          some ({ st with unlinked := unl,
                          freelist := ⟨id, 1⟩ :: st.freelist,
                          refcnt := st.refcnt - 1 }, [])
        else none
    | none => none

/-- `impl Drop for SizedSlabAlloc` (`lib.rs` lines 587-607).  During
abnormal unwinding (`panicking`) the destructor returns immediately,
performing no check and releasing nothing.  Otherwise it asserts
`refcnt == 0` (`none` models the assertion failing) and releases every
slab of the freelist to the family, front first. -/
def SizedSlabAlloc.drop (panicking : Bool) (st : SizedSlabAlloc) :
    Option (SizedSlabAlloc × List Slab) :=
  if panicking then some (st, [])
  else if st.refcnt = 0 then some ({ st with freelist := [] }, st.freelist)
  else none

/-- A public operation of the sized slab allocator, for whole-trace
statements. -/
inductive Op where
  | alloc (canAlloc : Bool)
  | dealloc (now : Nat) (id : Nat)
deriving DecidableEq, Repr

/-- Run a sequence of public operations, counting successful allocations
and deallocations.  An `Exhausted` allocation leaves the state untouched
and counts as no allocation; a `dealloc` that would be undefined
behaviour aborts the trace. -/
def runTrace (N : Nat) : SizedSlabAlloc → List Op →
    Option (SizedSlabAlloc × Nat × Nat)
  | st, [] => some (st, 0, 0)
  | st, Op.alloc c :: ops =>
    match SizedSlabAlloc.alloc N c st with
    | .ok _ st' =>
      match runTrace N st' ops with
      | none => none
      | some (fin, a, d) => some (fin, a + 1, d)
    | .exhausted _ => runTrace N st ops
  | st, Op.dealloc now id :: ops =>
    match SizedSlabAlloc.dealloc N now id st with
    | none => none
    | some (st', _) =>
      match runTrace N st' ops with
      | none => none
      | some (fin, a, d) => some (fin, a, d + 1)

/-- The number of outstanding objects implied by the slab free counts:
each live slab contributes `N - free_count` handed-out objects. -/
def freeSum (N : Nat) (st : SizedSlabAlloc) : Nat :=
  ((st.freelist ++ st.unlinked).map (fun s => N - s.free)).sum

/-- Structural invariant of `SizedSlabAlloc` (spec §4.5 and §8): every
freelist slab has between 1 and `N` free slots; partial slabs precede
fully-free slabs; `num_full` counts the fully-free freelist slabs;
unlinked slabs are exactly empty; slab identities are distinct and below
the next fresh id; `total_slabs` counts all live slabs; and the working
set's observed minimum never exceeds `num_full`. -/
def SlabInv (N : Nat) (st : SizedSlabAlloc) : Prop :=
  (∀ s ∈ st.freelist, 0 < s.free ∧ s.free ≤ N) ∧
  (st.freelist.filter (fun s => !(s.free == N)) ++
     st.freelist.filter (fun s => s.free == N) = st.freelist) ∧
  st.num_full = (st.freelist.filter (fun s => s.free == N)).length ∧
  (∀ s ∈ st.unlinked, s.free = 0) ∧
  (slabIds st.freelist ++ slabIds st.unlinked).Nodup ∧
  (∀ s ∈ st.freelist ++ st.unlinked, s.id < st.nextId) ∧
  st.total_slabs = st.freelist.length + st.unlinked.length ∧
  st.full_slab_working_set.minSeen ≤ st.num_full

/-- The structural invariant together with the refcount law: `refcnt`
equals the number of objects currently handed out. -/
def SlabInvR (N : Nat) (st : SizedSlabAlloc) : Prop :=
  SlabInv N st ∧ st.refcnt = freeSum N st

instance (N : Nat) (st : SizedSlabAlloc) : Decidable (SlabInv N st) := by
  unfold SlabInv
  infer_instance

instance (N : Nat) (st : SizedSlabAlloc) : Decidable (SlabInvR N st) := by
  unfold SlabInvR
  infer_instance

/-- The layout type of the 2017-era `alloc::allocator` API: a size and a
power-of-two alignment. -/
structure Layout where
  size : Nat
  align : Nat
deriving DecidableEq, Repr

/-- `Layout::align_to` of the 2017-era `alloc::allocator` API: raise the
alignment to at least the given one. -/
def Layout.align_to (l : Layout) (a : Nat) : Layout :=
  ⟨l.size, Nat.max l.align a⟩

/-- Modelled from the spec: `util::misc::satisfy_min_align` (module
`util` is not under `src/`): raises the layout's alignment to at least
the minimum demanded by the initialization policy. -/
def satisfy_min_align (l : Layout) (minAlign : Nat) : Layout :=
  ⟨l.size, Nat.max l.align minAlign⟩

/-- Rust's `usize::is_power_of_two`. -/
def is_power_of_two (n : Nat) : Bool :=
  (n != 0) && (n &&& (n - 1) == 0)

/-- `SlabAllocBuilder::align` / `UntypedSlabAllocBuilder::align`
(`lib.rs` lines 145-152 and 324-331): asserts that `a` is a power of two,
at most the object size, divides the object size, and is at most the page
size, then raises the layout's alignment.  `none` models a failed
assertion.  (For the typed builder the object size `mem::size_of::<T>()`
equals `l.size`, since the builder's layout starts at `Layout::new::<T>()`
and `align_to` never changes the size.) -/
def builder_align (pageSize : Nat) (l : Layout) (a : Nat) : Option Layout :=
  if is_power_of_two a = true ∧ a ≤ l.size ∧ l.size % a = 0 ∧ a ≤ pageSize
  then some (l.align_to a) else none

/-- Which slab family a built allocator uses, with the layout of the
memory regions requested from the backing allocator. -/
inductive FamilyChoice where
  | aligned (slabLayout : Layout)
  | large (slabLayout : Layout)
deriving DecidableEq, Repr

/-- A built allocator, as far as the claims here are concerned: the chosen
family and the layout stored in the `SizedSlabAlloc` (which is what
`UntypedObjectAlloc::layout`, `lib.rs` lines 423-429, reports). -/
structure SlabAllocModel where
  family : FamilyChoice
  layout : Layout
deriving DecidableEq, Repr

/-- `SlabAllocBuilder::build_backing` (`lib.rs` lines 185-211).  Asserts
`max_align >= PAGE_SIZE` (`none` models the failed assertion), raises the
builder layout to the initialization policy's minimum alignment, and
selects the aligned family iff the aligned family's required backing size
for that effective layout fits in `max_align`; otherwise the large family
with a page-aligned backing layout.  The required backing sizes
(`aligned::backing_size_for`, `large::backing_size_for`, modules not
under `src/`) are abstract parameters.  The layout stored in the
`SizedSlabAlloc` is the builder's layout `self.layout`. -/
def build_backing (pageSize maxAlign minAlign : Nat)
    (alignedSizeFor largeSizeFor : Layout → Nat) (requested : Layout) :
    Option SlabAllocModel :=
  if maxAlign < pageSize then none
  else
    let layout := satisfy_min_align requested minAlign
    let abs := alignedSizeFor layout
    if abs ≤ maxAlign then
      some ⟨.aligned ⟨abs, abs⟩, requested⟩
    else
      some ⟨.large ⟨largeSizeFor layout, pageSize⟩, requested⟩

/-- `SlabAllocBuilder::build_untyped_backing` (`lib.rs` lines 217-242)
and `UntypedSlabAllocBuilder::build_backing` (lines 358-384): identical
family-selection logic to `build_backing`. -/
def build_untyped_backing (pageSize maxAlign minAlign : Nat)
    (alignedSizeFor largeSizeFor : Layout → Nat) (requested : Layout) :
    Option SlabAllocModel :=
  if maxAlign < pageSize then none
  else
    let layout := satisfy_min_align requested minAlign
    let abs := alignedSizeFor layout
    if abs ≤ maxAlign then
      some ⟨.aligned ⟨abs, abs⟩, requested⟩
    else
      some ⟨.large ⟨largeSizeFor layout, pageSize⟩, requested⟩

example :
    SizedSlabAlloc.alloc 8 true (SizedSlabAlloc.new 0) =
      .ok 0 ⟨[⟨0, 7⟩], [], 1, 0, 1, ⟨0, 0⟩, 1⟩ := by decide

example :
    SizedSlabAlloc.dealloc 8 3 0 ⟨[⟨0, 7⟩], [], 1, 0, 1, ⟨0, 0⟩, 1⟩ =
      some (⟨[⟨0, 8⟩], [], 1, 1, 0, ⟨0, 0⟩, 1⟩, []) := by decide

/-- Claim C4: `alloc` returns `Exhausted` exactly when the freelist is
empty at the start of the call and the slab family fails to provide a new
slab; in that case the whole state is unchanged; in every other case
`alloc` returns a slot pointer. -/
theorem alloc_exhausted_iff (N : Nat) (c : Bool) (st : SizedSlabAlloc) :
    (SizedSlabAlloc.alloc N c st = .exhausted st ↔ st.freelist = [] ∧ c = false)
    ∧ (∀ st0, SizedSlabAlloc.alloc N c st = .exhausted st0 → st0 = st)
    ∧ (st.freelist ≠ [] ∨ c = true →
        ∃ p st', SizedSlabAlloc.alloc N c st = .ok p st') := by
  cases h : st.freelist with
  | nil =>
    cases c <;> simp [SizedSlabAlloc.alloc, h]
  | cons s rest =>
    cases c <;> simp [SizedSlabAlloc.alloc, h]

/-- Witness for C4: on a fresh allocator, `alloc` with a refusing backing
allocator is exhausted with the state unchanged, and with a willing
backing allocator it returns a pointer. -/
theorem alloc_exhausted_iff_witness :
    SizedSlabAlloc.alloc 8 false (SizedSlabAlloc.new 0) =
        .exhausted (SizedSlabAlloc.new 0)
    ∧ ∃ p st', SizedSlabAlloc.alloc 8 true (SizedSlabAlloc.new 0) = .ok p st' :=
  ⟨(alloc_exhausted_iff 8 false (SizedSlabAlloc.new 0)).1.mpr ⟨rfl, rfl⟩,
   (alloc_exhausted_iff 8 true (SizedSlabAlloc.new 0)).2.2 (Or.inr rfl)⟩

/-- Claim C5: outside abnormal unwinding, drop asserts `refcnt == 0`
(failing when it is nonzero) and releases every freelist slab to the
family, leaving the freelist empty; during unwinding it returns at once,
checking nothing and releasing nothing. -/
theorem drop_spec (p : Bool) (st : SizedSlabAlloc) :
    (p = true → SizedSlabAlloc.drop p st = some (st, []))
    ∧ (p = false → st.refcnt = 0 →
        SizedSlabAlloc.drop p st = some ({ st with freelist := [] }, st.freelist))
    ∧ (p = false → st.refcnt ≠ 0 → SizedSlabAlloc.drop p st = none) := by
  cases p <;> by_cases h : st.refcnt = 0 <;>
    simp [SizedSlabAlloc.drop, h]

/-- Witness for C5 at a one-slab state: quiescent drop empties the
freelist and releases the slab; drop during a panic releases nothing. -/
theorem drop_spec_witness :
    SizedSlabAlloc.drop false ⟨[⟨0, 8⟩], [], 1, 1, 0, ⟨0, 0⟩, 1⟩ =
        some (⟨[], [], 1, 1, 0, ⟨0, 0⟩, 1⟩, [⟨0, 8⟩])
    ∧ SizedSlabAlloc.drop true ⟨[⟨0, 8⟩], [], 1, 1, 3, ⟨0, 0⟩, 1⟩ =
        some (⟨[⟨0, 8⟩], [], 1, 1, 3, ⟨0, 0⟩, 1⟩, [])
    ∧ SizedSlabAlloc.drop false ⟨[⟨0, 8⟩], [], 1, 1, 3, ⟨0, 0⟩, 1⟩ = none :=
  ⟨(drop_spec false ⟨[⟨0, 8⟩], [], 1, 1, 0, ⟨0, 0⟩, 1⟩).2.1 rfl rfl,
   (drop_spec true ⟨[⟨0, 8⟩], [], 1, 1, 3, ⟨0, 0⟩, 1⟩).1 rfl,
   (drop_spec false ⟨[⟨0, 8⟩], [], 1, 1, 3, ⟨0, 0⟩, 1⟩).2.2 rfl (by decide)⟩

/-- Claim C7: the terminal build methods (typed and untyped) select the
aligned slab family iff the aligned family's required backing size for
the effective layout is at most `max_align` (the backing layout then
being that size, self-aligned), and otherwise select the large family
with a page-aligned backing layout. -/
theorem build_backing_family_selection (pageSize maxAlign minAlign : Nat)
    (aS lS : Layout → Nat) (req : Layout) (hpg : pageSize ≤ maxAlign) :
    (aS (satisfy_min_align req minAlign) ≤ maxAlign →
      build_backing pageSize maxAlign minAlign aS lS req =
        some ⟨.aligned ⟨aS (satisfy_min_align req minAlign),
                        aS (satisfy_min_align req minAlign)⟩, req⟩
      ∧ build_untyped_backing pageSize maxAlign minAlign aS lS req =
        some ⟨.aligned ⟨aS (satisfy_min_align req minAlign),
                        aS (satisfy_min_align req minAlign)⟩, req⟩)
    ∧ (maxAlign < aS (satisfy_min_align req minAlign) →
      build_backing pageSize maxAlign minAlign aS lS req =
        some ⟨.large ⟨lS (satisfy_min_align req minAlign), pageSize⟩, req⟩
      ∧ build_untyped_backing pageSize maxAlign minAlign aS lS req =
        some ⟨.large ⟨lS (satisfy_min_align req minAlign), pageSize⟩, req⟩) := by
  have hng : ¬maxAlign < pageSize := Nat.not_lt.mpr hpg
  constructor
  · intro hle
    simp [build_backing, build_untyped_backing, hng, hle]
  · intro hgt
    have : ¬aS (satisfy_min_align req minAlign) ≤ maxAlign := Nat.not_le.mpr hgt
    simp [build_backing, build_untyped_backing, hng, this]

/-- Witness for C7: with page size 4096 and a backing size that fits in
`max_align`, the aligned family is chosen; with one that does not fit,
the large family is chosen with a page-aligned backing layout. -/
theorem build_backing_family_selection_witness :
    build_backing 4096 4096 8 (fun _ => 4096) (fun l => l.size * 8) ⟨64, 8⟩ =
      some ⟨.aligned ⟨4096, 4096⟩, ⟨64, 8⟩⟩
    ∧ build_backing 4096 4096 8 (fun _ => 8192) (fun l => l.size * 8) ⟨64, 8⟩ =
      some ⟨.large ⟨512, 4096⟩, ⟨64, 8⟩⟩ :=
  ⟨((build_backing_family_selection 4096 4096 8 (fun _ => 4096)
      (fun l => l.size * 8) ⟨64, 8⟩ (by decide)).1 (by decide)).1,
   ((build_backing_family_selection 4096 4096 8 (fun _ => 8192)
      (fun l => l.size * 8) ⟨64, 8⟩ (by decide)).2 (by decide)).1⟩

/-- Claim C8: for every allocator built through the public builder (whose
constructors guarantee that the initialization policy's minimum alignment
never exceeds the requested alignment, a property `align` refinements
preserve), `layout()` reports the effective layout, i.e. the requested
layout with its alignment raised to at least `I::min_align()`. -/
theorem layout_reports_effective (pageSize maxAlign minAlign : Nat)
    (aS lS : Layout → Nat) (req : Layout) (al : SlabAllocModel)
    (hmin : minAlign ≤ req.align) :
    (build_backing pageSize maxAlign minAlign aS lS req = some al →
      al.layout = satisfy_min_align req minAlign)
    ∧ (build_untyped_backing pageSize maxAlign minAlign aS lS req = some al →
      al.layout = satisfy_min_align req minAlign)
    ∧ (∀ a, minAlign ≤ (req.align_to a).align) := by
  have heff : satisfy_min_align req minAlign = req := by
    cases req with
    | mk sz alg =>
      simp [satisfy_min_align, Nat.max_eq_left hmin]
  refine ⟨?_, ?_, ?_⟩
  · intro h
    rw [heff]
    unfold build_backing at h
    split at h
    · exact absurd h (by simp)
    · dsimp at h
      split at h <;> · cases h; rfl
  · intro h
    rw [heff]
    unfold build_untyped_backing at h
    split at h
    · exact absurd h (by simp)
    · dsimp at h
      split at h <;> · cases h; rfl
  · intro a
    exact le_trans hmin (Nat.le_max_left _ _)

/-- Witness for C8: a concrete build whose reported layout is the
effective layout. -/
theorem layout_reports_effective_witness :
    build_backing 4096 4096 8 (fun _ => 4096) (fun l => l.size * 8) ⟨64, 8⟩ =
      some ⟨.aligned ⟨4096, 4096⟩, ⟨64, 8⟩⟩
    ∧ (⟨.aligned ⟨4096, 4096⟩, ⟨64, 8⟩⟩ : SlabAllocModel).layout =
      satisfy_min_align ⟨64, 8⟩ 8 :=
  ⟨by decide,
   (layout_reports_effective 4096 4096 8 (fun _ => 4096) (fun l => l.size * 8)
      ⟨64, 8⟩ ⟨.aligned ⟨4096, 4096⟩, ⟨64, 8⟩⟩ (by decide)).1 (by decide)⟩

/-- Claim C9: the builder's `align(a)` asserts exactly that `a` is a
power of two, `a` does not exceed the object size, the object size is a
multiple of `a`, and `a` does not exceed the page size; the terminal
build methods assert `max_align >= page_size`; a builder value that
passes `align` therefore satisfies every one of those conditions. -/
theorem builder_rejects_bad_config (pageSize : Nat) (l : Layout) (a : Nat) :
    ((∃ l', builder_align pageSize l a = some l') ↔
      (is_power_of_two a = true ∧ a ≤ l.size ∧ l.size % a = 0 ∧ a ≤ pageSize))
    ∧ (∀ l', builder_align pageSize l a = some l' →
        l' = l.align_to a ∧ is_power_of_two a = true ∧ a ≤ l.size ∧
          l.size % a = 0 ∧ a ≤ pageSize)
    ∧ (∀ maxAlign minAlign aS lS req, maxAlign < pageSize →
        build_backing pageSize maxAlign minAlign aS lS req = none ∧
        build_untyped_backing pageSize maxAlign minAlign aS lS req = none) := by
  refine ⟨?_, ?_, ?_⟩
  · unfold builder_align
    split
    · rename_i h
      simp [h]
    · rename_i h
      simpa using h
  · intro l' h
    unfold builder_align at h
    split at h
    · rename_i hc
      cases h
      exact ⟨rfl, hc.1, hc.2.1, hc.2.2.1, hc.2.2.2⟩
    · exact absurd h (by simp)
  · intro maxAlign minAlign aS lS req h
    constructor
    · simp [build_backing, h]
    · simp [build_untyped_backing, h]

/-- Witness for C9: `align(24)` on a 48-byte object with page size 4096
is rejected (24 is not a power of two), `align(16)` is accepted, and
building with `max_align` below the page size is rejected. -/
theorem builder_rejects_bad_config_witness :
    builder_align 4096 ⟨48, 8⟩ 16 = some ⟨48, 16⟩
    ∧ ¬(∃ l', builder_align 4096 ⟨48, 8⟩ 24 = some l')
    ∧ build_backing 4096 64 1 (fun _ => 4096) (fun l => l.size * 8) ⟨48, 8⟩ =
        none :=
  ⟨by decide,
   fun hex =>
     absurd ((builder_rejects_bad_config 4096 ⟨48, 8⟩ 24).1.mp hex).1 (by decide),
   ((builder_rejects_bad_config 4096 ⟨48, 8⟩ 16).2.2 64 1 (fun _ => 4096)
      (fun l => l.size * 8) ⟨48, 8⟩ (by decide)).1⟩

/-- The partition condition of the invariant, unpacked into an explicit
decomposition into a partial region followed by a fully-free region. -/
theorem partition_decomp {N : Nat} {l : List Slab}
    (h : l.filter (fun s => !(s.free == N)) ++
          l.filter (fun s => s.free == N) = l) :
    ∃ p f, l = p ++ f ∧ (∀ s ∈ p, s.free ≠ N) ∧ (∀ s ∈ f, s.free = N) := by
  refine ⟨l.filter (fun s => !(s.free == N)), l.filter (fun s => s.free == N),
    h.symm, ?_, ?_⟩
  · intro s hs
    have := List.of_mem_filter hs
    simpa using this
  · intro s hs
    have := List.of_mem_filter hs
    simpa using this

/-- Filtering an explicitly partitioned list for fully-free (resp.
partial) slabs yields exactly the full (resp. partial) region. -/
theorem filter_of_decomp {N : Nat} {p f : List Slab}
    (hp : ∀ s ∈ p, s.free ≠ N) (hf : ∀ s ∈ f, s.free = N) :
    (p ++ f).filter (fun s => s.free == N) = f
    ∧ (p ++ f).filter (fun s => !(s.free == N)) = p := by
  constructor
  · rw [List.filter_append]
    have h1 : p.filter (fun s => s.free == N) = [] := by
      simp only [List.filter_eq_nil_iff]
      intro s hs
      simpa using hp s hs
    have h2 : f.filter (fun s => s.free == N) = f := by
      rw [List.filter_eq_self]
      intro s hs
      simpa using hf s hs
    rw [h1, h2, List.nil_append]
  · rw [List.filter_append]
    have h1 : p.filter (fun s => !(s.free == N)) = p := by
      rw [List.filter_eq_self]
      intro s hs
      simpa using hp s hs
    have h2 : f.filter (fun s => !(s.free == N)) = [] := by
      simp only [List.filter_eq_nil_iff]
      intro s hs
      simpa using hf s hs
    rw [h1, h2, List.append_nil]

/-- An explicitly partitioned list satisfies the invariant's filter-based
partition condition. -/
theorem partition_of_decomp {N : Nat} {p f : List Slab}
    (hp : ∀ s ∈ p, s.free ≠ N) (hf : ∀ s ∈ f, s.free = N) :
    (p ++ f).filter (fun s => !(s.free == N)) ++
      (p ++ f).filter (fun s => s.free == N) = p ++ f := by
  rw [(filter_of_decomp hp hf).1, (filter_of_decomp hp hf).2]

/-- A nonempty partitioned list either starts its full region at the head
(everything is fully free) or has a partial head. -/
theorem partition_cases {N : Nat} {s : Slab} {rest : List Slab}
    (h : (s :: rest).filter (fun t => !(t.free == N)) ++
          (s :: rest).filter (fun t => t.free == N) = s :: rest) :
    (s.free = N ∧ ∀ t ∈ rest, t.free = N)
    ∨ (s.free ≠ N ∧ ∃ p' f, rest = p' ++ f ∧ (∀ t ∈ p', t.free ≠ N)
        ∧ (∀ t ∈ f, t.free = N)) := by
  obtain ⟨p, f, hpf, hp, hf⟩ := partition_decomp h
  cases p with
  | nil =>
    left
    simp only [List.nil_append] at hpf
    exact ⟨hf s (hpf ▸ List.mem_cons_self s rest),
      fun t ht => hf t (hpf ▸ List.mem_cons_of_mem s ht)⟩
  | cons t p' =>
    right
    simp only [List.cons_append, List.cons.injEq] at hpf
    obtain ⟨rfl, hrest⟩ := hpf
    exact ⟨hp s (List.mem_cons_self s p'), p', f, hrest,
      fun u hu => hp u (List.mem_cons_of_mem s hu), hf⟩

/-- Splitting a list with distinct slab ids at a member slab: the member's
id occurs in neither side. -/
theorem mem_split_of_nodup {l : List Slab} {s : Slab} (hs : s ∈ l)
    (hnd : (slabIds l).Nodup) :
    ∃ l1 l2, l = l1 ++ s :: l2 ∧ s.id ∉ slabIds l1 ∧ s.id ∉ slabIds l2 := by
  obtain ⟨l1, l2, rfl⟩ := List.append_of_mem hs
  have hnd' : (l1.map Slab.id).Nodup ∧ (s.id :: l2.map Slab.id).Nodup ∧
      (l1.map Slab.id).Disjoint (s.id :: l2.map Slab.id) := by
    have := hnd
    simp only [slabIds, List.map_append, List.map_cons] at this
    exact List.nodup_append.mp this
  refine ⟨l1, l2, rfl, ?_, ?_⟩
  · intro hmem
    have hmem' : s.id ∈ l1.map Slab.id := by simpa [slabIds] using hmem
    exact hnd'.2.2 hmem' (List.mem_cons_self _ _)
  · intro hmem
    have hmem' : s.id ∈ l2.map Slab.id := by simpa [slabIds] using hmem
    exact (List.nodup_cons.mp hnd'.2.1).1 hmem'

/-- `find?` by id on a split list whose left part avoids the id returns
the split member. -/
theorem find?_id_split (l1 l2 : List Slab) (s : Slab)
    (h1 : s.id ∉ slabIds l1) :
    (l1 ++ s :: l2).find? (fun t => t.id == s.id) = some s := by
  induction l1 with
  | nil =>
    simp [List.find?_cons_of_pos]
  | cons t l1 ih =>
    have ht : t.id ≠ s.id := by
      intro h
      exact h1 (by simp [slabIds, h])
    have h1' : s.id ∉ slabIds l1 := fun h => h1 (by simp [slabIds] at h ⊢; exact Or.inr h)
    rw [List.cons_append, List.find?_cons_of_neg _ (by simpa using ht)]
    exact ih h1'

/-- `eraseP` by id on a split list whose left part avoids the id removes
exactly the split member. -/
theorem eraseP_id_split (l1 l2 : List Slab) (s : Slab)
    (h1 : s.id ∉ slabIds l1) :
    (l1 ++ s :: l2).eraseP (fun t => t.id == s.id) = l1 ++ l2 := by
  induction l1 with
  | nil =>
    simp [List.eraseP_cons_of_pos]
  | cons t l1 ih =>
    have ht : t.id ≠ s.id := by
      intro h
      exact h1 (by simp [slabIds, h])
    have h1' : s.id ∉ slabIds l1 := fun h => h1 (by simp [slabIds] at h ⊢; exact Or.inr h)
    rw [List.cons_append, List.eraseP_cons_of_neg (by simpa using ht),
      ih h1', List.cons_append]

/-- The in-place free-count update is the identity on a list avoiding the
updated id. -/
theorem map_update_id_skip (l : List Slab) (i f' : Nat)
    (h : i ∉ slabIds l) :
    l.map (fun t => if t.id == i then (⟨i, f'⟩ : Slab) else t) = l := by
  induction l with
  | nil => rfl
  | cons t l ih =>
    have ht : t.id ≠ i := by
      intro he
      exact h (by simp [slabIds, he])
    have h' : i ∉ slabIds l := fun hm => h (by simp [slabIds] at hm ⊢; exact Or.inr hm)
    simp only [List.map_cons, ih h']
    simp [ht]

/-- The in-place free-count update touches exactly the split member when
both sides avoid its id. -/
theorem map_update_id_split (l1 l2 : List Slab) (s : Slab) (f' : Nat)
    (h1 : s.id ∉ slabIds l1) (h2 : s.id ∉ slabIds l2) :
    (l1 ++ s :: l2).map
        (fun t => if t.id == s.id then (⟨s.id, f'⟩ : Slab) else t) =
      l1 ++ (⟨s.id, f'⟩ : Slab) :: l2 := by
  rw [List.map_append, List.map_cons]
  rw [map_update_id_skip l1 s.id f' h1, map_update_id_skip l2 s.id f' h2]
  simp

/-- The reclamation loop removes exactly the tail region it is asked to
remove: on `front ++ tail` with budget `|tail|` it keeps `front` and
releases the elements of `tail`, last first. -/
theorem gcLoop_append (l1 l2 : List Slab) :
    gcLoop l2.length (l1 ++ l2) = some (l1, l2.reverse) := by
  induction l2 using List.reverseRecOn generalizing l1 with
  | nil => simp [gcLoop]
  | append_singleton ys a ih =>
    have hrb : removeBack (l1 ++ (ys ++ [a])) = some (a, l1 ++ ys) := by
      rw [removeBack, ← List.append_assoc]
      rw [List.getLast?_concat, List.dropLast_concat]
    simp only [List.length_append, List.length_singleton, gcLoop, hrb, ih]
    simp

/-- Full behaviour of `garbage_collect_slabs` on a state satisfying the
structural invariant: if the working-set window has not elapsed nothing
but the working set is touched; if it closed with minimum `m`, exactly
the last `m` slabs of the freelist — all fully free — are removed and
released, the counters drop by exactly `m` (no underflow), and the
working set is reseeded with the new `num_full`. -/
theorem gc_spec (N now : Nat) (st : SizedSlabAlloc) (hInv : SlabInv N st) :
    (∀ ws', st.full_slab_working_set.refresh WORKING_PERIOD_SECONDS now =
        (none, ws') →
      garbage_collect_slabs now st =
        some ({ st with full_slab_working_set := ws' }, []))
    ∧ (∀ m ws', st.full_slab_working_set.refresh WORKING_PERIOD_SECONDS now =
        (some m, ws') →
      ∃ kept dropped,
        st.freelist = kept ++ dropped ∧ dropped.length = m ∧
        (∀ s ∈ dropped, s.free = N) ∧
        (kept.filter (fun s => !(s.free == N)) ++
          kept.filter (fun s => s.free == N) = kept) ∧
        st.num_full - m = (kept.filter (fun s => s.free == N)).length ∧
        m ≤ st.num_full ∧ st.num_full ≤ st.freelist.length ∧
        m ≤ st.total_slabs ∧
        garbage_collect_slabs now st = some
          ({ st with freelist := kept,
                     total_slabs := st.total_slabs - m,
                     num_full := st.num_full - m,
                     full_slab_working_set := ws'.set (st.num_full - m) now },
           dropped.reverse)) := by
  obtain ⟨hpos, hpart, hnum, hunl, hnd, hlt, htot, hws⟩ := hInv
  constructor
  · intro ws' h
    simp only [garbage_collect_slabs, h]
  · intro m ws' h
    have hm : m = st.full_slab_working_set.minSeen := by
      rw [WorkingSet.refresh] at h
      split_ifs at h
      · have h1 := congrArg Prod.fst h
        simpa using h1.symm
      · have h1 := congrArg Prod.fst h
        simp at h1
    obtain ⟨p, f, hdecomp, hp, hf⟩ := partition_decomp hpart
    have hnumf : st.num_full = f.length := by
      rw [hnum, hdecomp, (filter_of_decomp hp hf).1]
    have hmle : m ≤ f.length := by
      rw [← hnumf, hm]
      exact hws
    set f1 := f.take (f.length - m) with hf1
    set f2 := f.drop (f.length - m) with hf2
    have hsplit : f = f1 ++ f2 := (List.take_append_drop _ f).symm
    have hlen2 : f2.length = m := by
      rw [hf2, List.length_drop]
      omega
    have hfl : st.freelist = (p ++ f1) ++ f2 := by
      rw [hdecomp, hsplit, List.append_assoc]
    have hloop : gcLoop m st.freelist = some (p ++ f1, f2.reverse) := by
      rw [hfl, ← hlen2]
      exact gcLoop_append (p ++ f1) f2
    have hf1full : ∀ s ∈ f1, s.free = N := fun s hs =>
      hf s (List.mem_of_mem_take hs)
    have hf2full : ∀ s ∈ f2, s.free = N := fun s hs =>
      hf s (List.mem_of_mem_drop hs)
    have hlen1 : f1.length = f.length - m := by
      rw [hf1, List.length_take]
      omega
    refine ⟨p ++ f1, f2, hfl, hlen2, hf2full, partition_of_decomp hp hf1full, ?_,
      ?_, ?_, ?_, ?_⟩
    · rw [(filter_of_decomp hp hf1full).1, hlen1, hnumf]
    · omega
    · rw [hnumf, hdecomp, List.length_append]
      omega
    · rw [htot, hfl]
      simp only [List.length_append]
      omega
    · simp only [garbage_collect_slabs, h, hloop]

/-- Reclamation preserves the structural invariant and leaves `refcnt`,
the outstanding-object count, the unlinked slabs and the id supply
untouched. -/
theorem inv_gc (N now : Nat) (st st' : SizedSlabAlloc) (rel : List Slab)
    (hInv : SlabInv N st)
    (h : garbage_collect_slabs now st = some (st', rel)) :
    SlabInv N st' ∧ st'.refcnt = st.refcnt ∧ freeSum N st' = freeSum N st ∧
      st'.unlinked = st.unlinked ∧ st'.nextId = st.nextId := by
  rcases hr : st.full_slab_working_set.refresh WORKING_PERIOD_SECONDS now with ⟨o, ws'⟩
  cases o with
  | none =>
    have heq := (gc_spec N now st hInv).1 ws' hr
    rw [heq] at h
    have hws' : ws' = st.full_slab_working_set := by
      rw [WorkingSet.refresh] at hr
      split_ifs at hr
      · have h1 := congrArg Prod.fst hr
        simp at h1
      · have h2 := congrArg Prod.snd hr
        simpa using h2.symm
    have hst : st' = st := by
      have := h
      injection this with h1
      injection h1 with h2 h3
      rw [← h2, hws']
    rw [hst]
    exact ⟨hInv, rfl, rfl, rfl, rfl⟩
  | some m =>
    obtain ⟨kept, dropped, hfl, hlen, hfull, hpart', hnum', hm_nf, hnf_len,
      hm_tot, hgceq⟩ := (gc_spec N now st hInv).2 m ws' hr
    rw [hgceq] at h
    injection h with h1
    injection h1 with h2 h3
    obtain ⟨hpos, hpart, hnum, hunl, hnd, hlt, htot, hws⟩ := hInv
    subst h2
    refine ⟨⟨?_, ?_, ?_, ?_, ?_, ?_, ?_, ?_⟩, rfl, ?_, rfl, rfl⟩
    · intro s hs
      exact hpos s (hfl ▸ List.mem_append_left _ hs)
    · exact hpart'
    · exact hnum'
    · exact hunl
    · have hsub : List.Sublist (kept ++ st.unlinked) (st.freelist ++ st.unlinked) := by
        rw [hfl]
        exact List.Sublist.append_right (List.sublist_append_left kept dropped) _
      have := hnd
      simp only [slabIds, List.map_append] at this ⊢
      exact List.Nodup.sublist (by simpa using List.Sublist.map Slab.id hsub) this
    · intro s hs
      refine hlt s ?_
      rcases List.mem_append.mp hs with h | h
      · exact List.mem_append.mpr (Or.inl (hfl ▸ List.mem_append_left _ h))
      · exact List.mem_append.mpr (Or.inr h)
    · have hklen : st.freelist.length = kept.length + m := by
        rw [hfl, List.length_append, hlen]
      simp only [List.length_append] at htot ⊢
      omega
    · exact Nat.le_refl _
    · have hdrop0 : (dropped.map (fun s => N - s.free)).sum = 0 := by
        apply List.sum_eq_zero
        intro x hx
        obtain ⟨s, hs, rfl⟩ := List.mem_map.mp hx
        rw [hfull s hs]
        omega
      simp only [freeSum, hfl, List.append_assoc, List.map_append,
        List.sum_append]
      omega


/-- The body of `alloc` (taking one object from the slab at the head of a
nonempty freelist) preserves the invariant and increments `refcnt` by
exactly one. -/
theorem inv_allocBody (N : Nat) (s : Slab) (rest : List Slab)
    (st : SizedSlabAlloc) (hN : 0 < N) (hfl : st.freelist = s :: rest)
    (hInvR : SlabInvR N st) :
    SlabInvR N (allocBody N s rest st).2 ∧
      (allocBody N s rest st).2.refcnt = st.refcnt + 1 := by
  obtain ⟨⟨hpos, hpart, hnum, hunl, hnd, hlt, htot, hws⟩, hR⟩ := hInvR
  rw [hfl] at hpos hpart hnum hnd hlt htot
  rw [freeSum, hfl] at hR
  have hhead := hpos s (List.mem_cons_self s rest)
  have hndk : (s.id :: (slabIds rest ++ slabIds st.unlinked)).Nodup := by
    simpa [slabIds] using hnd
  by_cases hsf : s.free = N
  · -- head slab fully free: num_full drops, working set updated
    rcases partition_cases hpart with ⟨_, hrf⟩ | ⟨hne, _⟩
    · have hfilr : rest.filter (fun t => t.free == N) = rest :=
        List.filter_eq_self.mpr (fun t ht => by simpa using hrf t ht)
      have hnumv : st.num_full = rest.length + 1 := by
        rw [hnum, List.filter_cons_of_pos (by simpa using hsf), hfilr]
        simp
      by_cases hz : s.free - 1 = 0
      · -- N = 1: slab becomes empty at once and is unlinked
        have hN1 : N = 1 := by omega
        have hbody : (allocBody N s rest st).2 =
            { st with freelist := rest,
                      unlinked := (⟨s.id, 0⟩ : Slab) :: st.unlinked,
                      num_full := st.num_full - 1,
                      full_slab_working_set :=
                        st.full_slab_working_set.update_min (st.num_full - 1),
                      refcnt := st.refcnt + 1 } := by
          simp [allocBody, hsf, hN1]
        rw [hbody]
        refine ⟨⟨⟨?_, ?_, ?_, ?_, ?_, ?_, ?_, ?_⟩, ?_⟩, rfl⟩
        · intro t ht
          exact hpos t (List.mem_cons_of_mem s ht)
        · simpa using partition_of_decomp (p := []) (f := rest) (by simp) hrf
        · dsimp only
          rw [hfilr]
          omega
        · intro t ht
          rcases List.mem_cons.mp ht with rfl | ht
          · rfl
          · exact hunl t ht
        · have hperm : (s.id :: (slabIds rest ++ slabIds st.unlinked)).Perm
              (slabIds rest ++ s.id :: slabIds st.unlinked) :=
            List.perm_middle.symm
          simpa [slabIds] using hperm.nodup hndk
        · intro t ht
          dsimp only at ht
          rcases List.mem_append.mp ht with h | h
          · exact hlt t (by simp [h])
          · rcases List.mem_cons.mp h with rfl | h
            · exact hlt s (by simp)
            · exact hlt t (by simp [h])
        · dsimp only
          simp only [List.length_cons] at htot ⊢
          omega
        · dsimp only [WorkingSet.update_min]
          exact Nat.min_le_right _ _
        · dsimp only [freeSum]
          simp only [List.cons_append, List.map_append, List.sum_append,
            List.map_cons, List.sum_cons] at hR ⊢
          omega
      · -- N ≥ 2: slab stays at the front, now partial
        have hz2 : ¬(N - 1 = 0) := by omega
        have hbody : (allocBody N s rest st).2 =
            { st with freelist := (⟨s.id, s.free - 1⟩ : Slab) :: rest,
                      num_full := st.num_full - 1,
                      full_slab_working_set :=
                        st.full_slab_working_set.update_min (st.num_full - 1),
                      refcnt := st.refcnt + 1 } := by
          simp [allocBody, hsf, hz2]
        rw [hbody]
        refine ⟨⟨⟨?_, ?_, ?_, ?_, ?_, ?_, ?_, ?_⟩, ?_⟩, rfl⟩
        · intro t ht
          rcases List.mem_cons.mp ht with rfl | ht
          · exact ⟨by simpa using Nat.pos_of_ne_zero hz, by simp; omega⟩
          · exact hpos t (List.mem_cons_of_mem s ht)
        · simpa using partition_of_decomp (p := [⟨s.id, s.free - 1⟩]) (f := rest)
            (by simp; omega) hrf
        · dsimp only
          rw [List.filter_cons_of_neg (by simp; omega), hfilr]
          omega
        · exact hunl
        · simpa [slabIds] using hnd
        · intro t ht
          dsimp only at ht
          rcases List.mem_append.mp ht with h | h
          · rcases List.mem_cons.mp h with rfl | h
            · exact hlt s (by simp)
            · exact hlt t (by simp [h])
          · exact hlt t (by simp [h])
        · dsimp only
          simpa using htot
        · dsimp only [WorkingSet.update_min]
          exact Nat.min_le_right _ _
        · dsimp only [freeSum]
          simp only [List.cons_append, List.map_append, List.sum_append,
            List.map_cons, List.sum_cons] at hR ⊢
          omega
    · exact absurd hsf hne
  · -- head slab partial: num_full and working set untouched
    rcases partition_cases hpart with ⟨hfull, _⟩ | ⟨_, p', f, hrest, hp', hf⟩
    · exact absurd hfull hsf
    · have hnumv : st.num_full = (rest.filter (fun t => t.free == N)).length := by
        rw [hnum, List.filter_cons_of_neg (by simpa using hsf)]
      by_cases hz : s.free - 1 = 0
      · -- slab becomes empty: unlink it
        have hbody : (allocBody N s rest st).2 =
            { st with freelist := rest,
                      unlinked := (⟨s.id, 0⟩ : Slab) :: st.unlinked,
                      refcnt := st.refcnt + 1 } := by
          simp [allocBody, hsf, hz]
        rw [hbody]
        refine ⟨⟨⟨?_, ?_, ?_, ?_, ?_, ?_, ?_, ?_⟩, ?_⟩, rfl⟩
        · intro t ht
          exact hpos t (List.mem_cons_of_mem s ht)
        · dsimp only
          rw [hrest]
          exact partition_of_decomp hp' hf
        · dsimp only
          exact hnumv
        · intro t ht
          rcases List.mem_cons.mp ht with rfl | ht
          · rfl
          · exact hunl t ht
        · have hperm : (s.id :: (slabIds rest ++ slabIds st.unlinked)).Perm
              (slabIds rest ++ s.id :: slabIds st.unlinked) :=
            List.perm_middle.symm
          simpa [slabIds] using hperm.nodup hndk
        · intro t ht
          dsimp only at ht
          rcases List.mem_append.mp ht with h | h
          · exact hlt t (by simp [h])
          · rcases List.mem_cons.mp h with rfl | h
            · exact hlt s (by simp)
            · exact hlt t (by simp [h])
        · dsimp only
          simp only [List.length_cons] at htot ⊢
          omega
        · exact hws
        · dsimp only [freeSum]
          simp only [List.cons_append, List.map_append, List.sum_append,
            List.map_cons, List.sum_cons] at hR ⊢
          have hone : s.free = 1 := by omega
          have hle := hhead.2
          omega
      · -- slab stays partial at the front
        have hbody : (allocBody N s rest st).2 =
            { st with freelist := (⟨s.id, s.free - 1⟩ : Slab) :: rest,
                      refcnt := st.refcnt + 1 } := by
          simp [allocBody, hsf, hz]
        rw [hbody]
        refine ⟨⟨⟨?_, ?_, ?_, ?_, ?_, ?_, ?_, ?_⟩, ?_⟩, rfl⟩
        · intro t ht
          rcases List.mem_cons.mp ht with rfl | ht
          · exact ⟨by simpa using Nat.pos_of_ne_zero hz, by simp; omega⟩
          · exact hpos t (List.mem_cons_of_mem s ht)
        · dsimp only
          have hrw : (⟨s.id, s.free - 1⟩ : Slab) :: rest =
              ((⟨s.id, s.free - 1⟩ : Slab) :: p') ++ f := by
            rw [hrest]
            simp
          rw [hrw]
          refine partition_of_decomp ?_ hf
          intro t ht
          rcases List.mem_cons.mp ht with rfl | ht
          · have hlt' : s.free < N := by
              rcases Nat.lt_or_ge s.free N with h | h
              · exact h
              · exact absurd (Nat.le_antisymm hhead.2 h) hsf
            simp
            omega
          · exact hp' t ht
        · dsimp only
          rw [List.filter_cons_of_neg (by simp; omega)]
          exact hnumv
        · exact hunl
        · simpa [slabIds] using hnd
        · intro t ht
          dsimp only at ht
          rcases List.mem_append.mp ht with h | h
          · rcases List.mem_cons.mp h with rfl | h
            · exact hlt s (by simp)
            · exact hlt t (by simp [h])
          · exact hlt t (by simp [h])
        · dsimp only
          simpa using htot
        · exact hws
        · dsimp only [freeSum]
          simp only [List.cons_append, List.map_append, List.sum_append,
            List.map_cons, List.sum_cons] at hR ⊢
          have hle := hhead.2
          omega

/-- `find?` by id returns the unique member with that id. -/
theorem find?_id_of_mem {l : List Slab} {s : Slab} (hs : s ∈ l)
    (hnd : (slabIds l).Nodup) :
    l.find? (fun t => t.id == s.id) = some s := by
  obtain ⟨l1, l2, rfl, h1, _⟩ := mem_split_of_nodup hs hnd
  exact find?_id_split l1 l2 s h1

/-- `find?` by id fails on a list avoiding that id. -/
theorem find?_id_of_not_mem {l : List Slab} {i : Nat} (h : i ∉ slabIds l) :
    l.find? (fun t => t.id == i) = none := by
  rw [List.find?_eq_none]
  intro t ht
  simp only [beq_iff_eq]
  intro he
  exact h (by simp [slabIds]; exact ⟨t, ht, he⟩)

/-- When the working-set window has not yet elapsed, `refresh` reports
nothing and returns the tracker unchanged. -/
theorem refresh_none_eq {ws : WorkingSet} {window now : Nat} {ws' : WorkingSet}
    (h : ws.refresh window now = (none, ws')) : ws' = ws := by
  rw [WorkingSet.refresh] at h
  split_ifs at h
  · have h1 := congrArg Prod.fst h
    simp at h1
  · have h2 := congrArg Prod.snd h
    simpa using h2.symm

/-- When the working-set window has not yet elapsed,
`garbage_collect_slabs` releases nothing and changes nothing. -/
theorem gc_none (now : Nat) (st : SizedSlabAlloc) (ws' : WorkingSet)
    (h : st.full_slab_working_set.refresh WORKING_PERIOD_SECONDS now =
      (none, ws')) :
    garbage_collect_slabs now st = some (st, []) := by
  have hw := refresh_none_eq h
  subst hw
  simp only [garbage_collect_slabs, h]

/-- The invariant's filter-based partition condition is equivalent to the
pairwise condition "no fully-free slab ever precedes a partial one". -/
theorem partition_iff_pairwise (N : Nat) (l : List Slab) :
    (l.filter (fun s => !(s.free == N)) ++ l.filter (fun s => s.free == N) = l)
    ↔ l.Pairwise (fun a b => a.free = N → b.free = N) := by
  constructor
  · intro h
    obtain ⟨p, f, rfl, hp, hf⟩ := partition_decomp h
    rw [List.pairwise_append]
    refine ⟨?_, ?_, ?_⟩
    · exact List.pairwise_of_forall_mem_list
        (fun a ha b _ hfa => absurd hfa (hp a ha))
    · exact List.pairwise_of_forall_mem_list (fun a _ b hb _ => hf b hb)
    · exact fun a _ b hb _ => hf b hb
  · intro h
    induction l with
    | nil => rfl
    | cons s l ih =>
      rw [List.pairwise_cons] at h
      obtain ⟨hs, hl⟩ := h
      by_cases hfree : s.free = N
      · have hallf : ∀ b ∈ l, b.free = N := fun b hb => hs b hb hfree
        rw [List.filter_cons_of_neg (by simp [hfree]),
          List.filter_cons_of_pos (by simp [hfree])]
        have h1 : l.filter (fun s => !(s.free == N)) = [] := by
          simp only [List.filter_eq_nil_iff]
          intro b hb
          simp [hallf b hb]
        have h2 : l.filter (fun s => s.free == N) = l :=
          List.filter_eq_self.mpr (fun b hb => by simp [hallf b hb])
        rw [h1, h2]
        simp
      · rw [List.filter_cons_of_pos (by simp [hfree]),
          List.filter_cons_of_neg (by simp [hfree]), List.cons_append, ih hl]

/-- Removing an element preserves the partition pairwise condition. -/
theorem pw_remove {N : Nat} {l1 l2 : List Slab} {s : Slab}
    (h : (l1 ++ s :: l2).Pairwise (fun a b : Slab => a.free = N → b.free = N)) :
    (l1 ++ l2).Pairwise (fun a b : Slab => a.free = N → b.free = N) :=
  List.Pairwise.sublist
    (List.Sublist.append_left (List.sublist_cons_self s l2) l1) h

/-- Replacing a partial slab by another partial slab in place preserves
the partition pairwise condition. -/
theorem pw_replace {N : Nat} {l1 l2 : List Slab} {s s' : Slab}
    (hs : s.free ≠ N) (hs' : s'.free ≠ N)
    (h : (l1 ++ s :: l2).Pairwise (fun a b : Slab => a.free = N → b.free = N)) :
    (l1 ++ s' :: l2).Pairwise (fun a b : Slab => a.free = N → b.free = N) := by
  rw [List.pairwise_append] at h ⊢
  obtain ⟨h1, h2, h12⟩ := h
  rw [List.pairwise_cons] at h2 ⊢
  refine ⟨h1, ⟨fun b _ hb => absurd hb hs', h2.2⟩, ?_⟩
  intro a ha b hb
  rcases List.mem_cons.mp hb with rfl | hb
  · intro hfa
    exact absurd (h12 a ha s (List.mem_cons_self s l2) hfa) hs
  · exact h12 a ha b (List.mem_cons_of_mem s hb)

/-- Appending a fully-free slab at the back preserves the partition
pairwise condition. -/
theorem pw_insert_back_full {N : Nat} {l : List Slab} {s' : Slab}
    (hs' : s'.free = N)
    (h : l.Pairwise (fun a b : Slab => a.free = N → b.free = N)) :
    (l ++ [s']).Pairwise (fun a b : Slab => a.free = N → b.free = N) := by
  rw [List.pairwise_append]
  exact ⟨h, List.pairwise_singleton _ _, fun a _ b hb _ => by
    simp at hb
    rw [hb, hs']⟩

/-- Inserting a partial slab at the front preserves the partition
pairwise condition. -/
theorem pw_insert_front {N : Nat} {l : List Slab} {s' : Slab}
    (hs' : s'.free ≠ N)
    (h : l.Pairwise (fun a b : Slab => a.free = N → b.free = N)) :
    (s' :: l).Pairwise (fun a b : Slab => a.free = N → b.free = N) := by
  rw [List.pairwise_cons]
  exact ⟨fun b _ hb => absurd hb hs', h⟩

/-- Moving an id from the middle of the second region to the very front
preserves distinctness. -/
theorem nodup_insert_front {A B C : List Nat} {i : Nat}
    (h : (A ++ (B ++ i :: C)).Nodup) : (i :: (A ++ (B ++ C))).Nodup := by
  have p1 : List.Perm (A ++ (B ++ i :: C)) (A ++ (i :: (B ++ C))) :=
    List.Perm.append_left A List.perm_middle
  have p2 : List.Perm (A ++ (i :: (B ++ C))) (i :: (A ++ (B ++ C))) :=
    List.perm_middle
  exact (p1.trans p2).nodup h

/-- Moving an id from the middle of the second region to the back of the
first region preserves distinctness. -/
theorem nodup_insert_back {A B C : List Nat} {i : Nat}
    (h : (A ++ (B ++ i :: C)).Nodup) : ((A ++ [i]) ++ (B ++ C)).Nodup := by
  have h1 := nodup_insert_front h
  have p : List.Perm ((A ++ [i]) ++ (B ++ C)) (i :: (A ++ (B ++ C))) :=
    List.Perm.append_right (B ++ C) (List.perm_append_singleton i A)
  exact p.symm.nodup h1

/-- Moving an id from the middle of the first region to the back of the
first region preserves distinctness. -/
theorem nodup_move_to_back {A B D : List Nat} {i : Nat}
    (h : ((A ++ i :: B) ++ D).Nodup) : (((A ++ B) ++ [i]) ++ D).Nodup := by
  have p1 : List.Perm ((A ++ i :: B) ++ D) ((i :: (A ++ B)) ++ D) :=
    List.Perm.append_right D List.perm_middle
  have p2 : List.Perm (((A ++ B) ++ [i]) ++ D) ((i :: (A ++ B)) ++ D) :=
    List.Perm.append_right D (List.perm_append_singleton i (A ++ B))
  exact p2.symm.nodup (p1.nodup h)

/-- Reduction of `dealloc` in the `(was_empty, is_full) = (false, false)`
case: the freed slab is in the freelist and stays partial; its free count
is bumped in place and nothing else happens. -/
theorem dealloc_eq_inplace (N now id : Nat) (st : SizedSlabAlloc) (s : Slab)
    (hmem : s ∈ st.freelist) (hid : s.id = id)
    (hndf : (slabIds st.freelist).Nodup)
    (hpos : 0 < s.free) (hlt : s.free + 1 < N) :
    SizedSlabAlloc.dealloc N now id st =
      some ({ st with
        freelist := st.freelist.map
          (fun t => if t.id == id then (⟨id, s.free + 1⟩ : Slab) else t),
        refcnt := st.refcnt - 1 }, []) := by
  subst hid
  simp only [SizedSlabAlloc.dealloc, find?_id_of_mem hmem hndf]
  rw [if_neg (by omega), if_neg (by omega), if_pos hlt]

/-- Reduction of `dealloc` in the `(false, true)` case: the freed slab is
in the freelist and becomes fully free; it is moved to the back,
`num_full` is bumped and `garbage_collect_slabs` runs, after which
`refcnt` drops. -/
theorem dealloc_eq_movefull (N now id : Nat) (st : SizedSlabAlloc) (s : Slab)
    (hmem : s ∈ st.freelist) (hid : s.id = id)
    (hndf : (slabIds st.freelist).Nodup)
    (hpos : 0 < s.free) (heq : s.free + 1 = N) :
    (∀ st2 rel, garbage_collect_slabs now
        { st with
          freelist := (st.freelist.eraseP (fun t => t.id == id)) ++ [⟨id, N⟩],
          num_full := st.num_full + 1 } = some (st2, rel) →
      SizedSlabAlloc.dealloc N now id st =
        some ({ st2 with refcnt := st2.refcnt - 1 }, rel))
    ∧ (garbage_collect_slabs now
        { st with
          freelist := (st.freelist.eraseP (fun t => t.id == id)) ++ [⟨id, N⟩],
          num_full := st.num_full + 1 } = none →
      SizedSlabAlloc.dealloc N now id st = none) := by
  subst hid
  constructor
  · intro st2 rel hgc
    simp only [SizedSlabAlloc.dealloc, find?_id_of_mem hmem hndf]
    rw [if_neg (by omega), if_pos heq, hgc]
  · intro hgc
    simp only [SizedSlabAlloc.dealloc, find?_id_of_mem hmem hndf]
    rw [if_neg (by omega), if_pos heq, hgc]

/-- Reduction of `dealloc` in the `(true, false)` case: the freed slab
was empty (unlinked) and, with `N > 1`, is now partial; it is inserted at
the front of the freelist. -/
theorem dealloc_eq_fromempty_front (N now id : Nat) (st : SizedSlabAlloc)
    (s : Slab) (hmem : s ∈ st.unlinked) (hid : s.id = id)
    (hnfl : id ∉ slabIds st.freelist)
    (hndu : (slabIds st.unlinked).Nodup)
    (hz : s.free = 0) (hN : 1 < N) :
    SizedSlabAlloc.dealloc N now id st =
      some ({ st with
        unlinked := st.unlinked.eraseP (fun t => t.id == id),
        freelist := (⟨id, 1⟩ : Slab) :: st.freelist,
        refcnt := st.refcnt - 1 }, []) := by
  subst hid
  simp only [SizedSlabAlloc.dealloc, find?_id_of_not_mem hnfl,
    find?_id_of_mem hmem hndu]
  rw [if_neg (by omega), if_neg (by omega), if_pos hN]

/-- Reduction of `dealloc` in the `(true, true)` case (`N = 1`): the
freed slab was empty and becomes fully free in a single free; it is
inserted at the back of the freelist, `num_full` is bumped and
`garbage_collect_slabs` runs, after which `refcnt` drops. -/
theorem dealloc_eq_fromempty_back (now id : Nat) (st : SizedSlabAlloc)
    (s : Slab) (hmem : s ∈ st.unlinked) (hid : s.id = id)
    (hnfl : id ∉ slabIds st.freelist)
    (hndu : (slabIds st.unlinked).Nodup)
    (hz : s.free = 0) :
    (∀ st2 rel, garbage_collect_slabs now
        { st with
          unlinked := st.unlinked.eraseP (fun t => t.id == id),
          freelist := st.freelist ++ [⟨id, 1⟩],
          num_full := st.num_full + 1 } = some (st2, rel) →
      SizedSlabAlloc.dealloc 1 now id st =
        some ({ st2 with refcnt := st2.refcnt - 1 }, rel))
    ∧ (garbage_collect_slabs now
        { st with
          unlinked := st.unlinked.eraseP (fun t => t.id == id),
          freelist := st.freelist ++ [⟨id, 1⟩],
          num_full := st.num_full + 1 } = none →
      SizedSlabAlloc.dealloc 1 now id st = none) := by
  subst hid
  constructor
  · intro st2 rel hgc
    simp only [SizedSlabAlloc.dealloc, find?_id_of_not_mem hnfl,
      find?_id_of_mem hmem hndu]
    rw [if_neg (by omega), hgc]
    simp
  · intro hgc
    simp only [SizedSlabAlloc.dealloc, find?_id_of_not_mem hnfl,
      find?_id_of_mem hmem hndu]
    rw [if_neg (by omega), hgc]
    simp

/-- `dealloc` traps on an id belonging to no live slab. -/
theorem dealloc_eq_foreign (N now id : Nat) (st : SizedSlabAlloc)
    (hnfl : id ∉ slabIds st.freelist) (hnul : id ∉ slabIds st.unlinked) :
    SizedSlabAlloc.dealloc N now id st = none := by
  simp only [SizedSlabAlloc.dealloc, find?_id_of_not_mem hnfl,
    find?_id_of_not_mem hnul]

/-- The state in the middle of a `(false, true)` dealloc — freed slab
moved to the back as fully free, `num_full` bumped, `refcnt` not yet
decremented — satisfies the structural invariant. -/
theorem inv_st1_movefull (N : Nat) (st : SizedSlabAlloc) (s : Slab)
    (l1 l2 : List Slab) (hInv : SlabInv N st)
    (hsplit : st.freelist = l1 ++ s :: l2)
    (hn1 : s.id ∉ slabIds l1) (hn2 : s.id ∉ slabIds l2)
    (hpos1 : 0 < s.free) (hfull : s.free + 1 = N) :
    SlabInv N { st with
      freelist := (st.freelist.eraseP (fun t => t.id == s.id)) ++ [⟨s.id, N⟩],
      num_full := st.num_full + 1 } := by
  obtain ⟨hpos, hpart, hnum, hunl, hnd, hlt, htot, hws⟩ := hInv
  have her : st.freelist.eraseP (fun t => t.id == s.id) = l1 ++ l2 := by
    rw [hsplit]
    exact eraseP_id_split l1 l2 s hn1
  have hsne : s.free ≠ N := by omega
  refine ⟨?_, ?_, ?_, hunl, ?_, ?_, ?_, ?_⟩
  · intro t ht
    dsimp only at ht
    rw [her] at ht
    rcases List.mem_append.mp ht with ht | ht
    · refine hpos t ?_
      rw [hsplit]
      rcases List.mem_append.mp ht with ht | ht
      · exact List.mem_append.mpr (Or.inl ht)
      · exact List.mem_append.mpr (Or.inr (List.mem_cons_of_mem s ht))
    · have he : t = ⟨s.id, N⟩ := by simpa using ht
      subst he
      exact ⟨by simp; omega, Nat.le_refl N⟩
  · dsimp only
    rw [her]
    rw [partition_iff_pairwise]
    have hpw := (partition_iff_pairwise N st.freelist).mp hpart
    rw [hsplit] at hpw
    exact pw_insert_back_full rfl (pw_remove hpw)
  · dsimp only
    rw [her]
    rw [hsplit, List.filter_append, List.filter_cons_of_neg (by simp [hsne])] at hnum
    rw [List.filter_append, List.filter_append, List.filter_cons_of_pos (by simp)]
    simp only [List.filter_nil, List.length_append, List.length_cons,
      List.length_nil] at hnum ⊢
    omega
  · dsimp only
    rw [her]
    have h0 : ((slabIds l1 ++ s.id :: slabIds l2) ++ slabIds st.unlinked).Nodup := by
      rw [hsplit] at hnd
      simpa [slabIds] using hnd
    have h1 := nodup_move_to_back h0
    simpa [slabIds] using h1
  · intro t ht
    dsimp only at ht
    rw [her] at ht
    rcases List.mem_append.mp ht with ht | ht
    · rcases List.mem_append.mp ht with ht | ht
      · rcases List.mem_append.mp ht with ht | ht
        · exact hlt t (by rw [hsplit]; simp [ht])
        · exact hlt t (by rw [hsplit]; simp [ht])
      · have : t = ⟨s.id, N⟩ := by simpa using ht
        subst this
        exact hlt s (by rw [hsplit]; simp)
    · exact hlt t (List.mem_append.mpr (Or.inr ht))
  · dsimp only
    rw [her]
    rw [hsplit] at htot
    simp only [List.length_append, List.length_cons, List.length_nil] at htot ⊢
    omega
  · dsimp only
    omega

/-- The state in the middle of a `(true, true)` dealloc (`N = 1`) — the
freed slab unlinked from nowhere, re-inserted at the back as fully free,
`num_full` bumped, `refcnt` not yet decremented — satisfies the
structural invariant. -/
theorem inv_st1_insback (st : SizedSlabAlloc) (s : Slab) (u1 u2 : List Slab)
    (hInv : SlabInv 1 st) (hsplit : st.unlinked = u1 ++ s :: u2)
    (hn1 : s.id ∉ slabIds u1) (hn2 : s.id ∉ slabIds u2)
    (hz : s.free = 0) :
    SlabInv 1 { st with
      unlinked := st.unlinked.eraseP (fun t => t.id == s.id),
      freelist := st.freelist ++ [⟨s.id, 1⟩],
      num_full := st.num_full + 1 } := by
  obtain ⟨hpos, hpart, hnum, hunl, hnd, hlt, htot, hws⟩ := hInv
  have her : st.unlinked.eraseP (fun t => t.id == s.id) = u1 ++ u2 := by
    rw [hsplit]
    exact eraseP_id_split u1 u2 s hn1
  refine ⟨?_, ?_, ?_, ?_, ?_, ?_, ?_, ?_⟩
  · intro t ht
    dsimp only at ht
    rcases List.mem_append.mp ht with ht | ht
    · exact hpos t ht
    · have he : t = ⟨s.id, 1⟩ := by simpa using ht
      subst he
      exact ⟨by simp, by simp⟩
  · dsimp only
    rw [partition_iff_pairwise]
    exact pw_insert_back_full rfl
      ((partition_iff_pairwise 1 st.freelist).mp hpart)
  · dsimp only
    rw [List.filter_append, List.filter_cons_of_pos (by simp)]
    simp only [List.filter_nil, List.length_append, List.length_cons,
      List.length_nil]
    omega
  · intro t ht
    dsimp only at ht
    rw [her] at ht
    rcases List.mem_append.mp ht with ht | ht
    · exact hunl t (by rw [hsplit]; simp [ht])
    · exact hunl t (by rw [hsplit]; simp [ht])
  · dsimp only
    rw [her]
    have h0 : (slabIds st.freelist ++ (slabIds u1 ++ s.id :: slabIds u2)).Nodup := by
      rw [hsplit] at hnd
      simpa [slabIds] using hnd
    have h1 := nodup_insert_back h0
    simpa [slabIds] using h1
  · intro t ht
    dsimp only at ht
    rw [her] at ht
    rcases List.mem_append.mp ht with ht | ht
    · rcases List.mem_append.mp ht with ht | ht
      · exact hlt t (by simp [ht])
      · have he : t = ⟨s.id, 1⟩ := by simpa using ht
        subst he
        exact hlt s (by rw [hsplit]; simp)
    · rcases List.mem_append.mp ht with ht | ht
      · exact hlt t (by rw [hsplit]; simp [ht])
      · exact hlt t (by rw [hsplit]; simp [ht])
  · dsimp only
    rw [her]
    rw [hsplit] at htot
    simp only [List.length_append, List.length_cons, List.length_nil] at htot ⊢
    omega
  · dsimp only
    omega

/-- The final state of a `(false, false)` dealloc — freed slab updated in
place, `refcnt` decremented — satisfies the full invariant; and the
decrement cannot underflow. -/
theorem invR_inplace (N : Nat) (st : SizedSlabAlloc) (s : Slab)
    (l1 l2 : List Slab) (hInvR : SlabInvR N st)
    (hsplit : st.freelist = l1 ++ s :: l2)
    (hn1 : s.id ∉ slabIds l1) (hn2 : s.id ∉ slabIds l2)
    (hpos1 : 0 < s.free) (hlt2 : s.free + 1 < N) :
    SlabInvR N { st with
      freelist := st.freelist.map
        (fun t => if t.id == s.id then (⟨s.id, s.free + 1⟩ : Slab) else t),
      refcnt := st.refcnt - 1 }
    ∧ 1 ≤ st.refcnt := by
  obtain ⟨⟨hpos, hpart, hnum, hunl, hnd, hlt, htot, hws⟩, hR⟩ := hInvR
  have hmap : st.freelist.map
      (fun t => if t.id == s.id then (⟨s.id, s.free + 1⟩ : Slab) else t) =
      l1 ++ (⟨s.id, s.free + 1⟩ : Slab) :: l2 := by
    rw [hsplit]
    exact map_update_id_split l1 l2 s (s.free + 1) hn1 hn2
  have hfge : 1 ≤ st.refcnt := by
    rw [hR, freeSum, hsplit]
    simp only [List.cons_append, List.append_assoc, List.map_append,
      List.sum_append, List.map_cons, List.sum_cons]
    omega
  refine ⟨⟨⟨?_, ?_, ?_, hunl, ?_, ?_, ?_, ?_⟩, ?_⟩, hfge⟩
  · intro t ht
    dsimp only at ht
    rw [hmap] at ht
    rcases List.mem_append.mp ht with ht | ht
    · exact hpos t (by rw [hsplit]; simp [ht])
    · rcases List.mem_cons.mp ht with rfl | ht
      · exact ⟨by simp, by simp; omega⟩
      · exact hpos t (by rw [hsplit]; simp [ht])
  · dsimp only
    rw [hmap, partition_iff_pairwise]
    have hpw := (partition_iff_pairwise N st.freelist).mp hpart
    rw [hsplit] at hpw
    exact pw_replace (by omega) (by simp; omega) hpw
  · dsimp only
    rw [hmap]
    rw [hsplit, List.filter_append, List.filter_cons_of_neg (by simp; omega)]
      at hnum
    rw [List.filter_append, List.filter_cons_of_neg (by simp; omega)]
    exact hnum
  · dsimp only
    rw [hmap]
    rw [hsplit] at hnd
    simpa [slabIds] using hnd
  · intro t ht
    dsimp only at ht
    rw [hmap] at ht
    rcases List.mem_append.mp ht with ht | ht
    · rcases List.mem_append.mp ht with ht | ht
      · exact hlt t (by rw [hsplit]; simp [ht])
      · rcases List.mem_cons.mp ht with rfl | ht
        · exact hlt s (by rw [hsplit]; simp)
        · exact hlt t (by rw [hsplit]; simp [ht])
    · exact hlt t (List.mem_append.mpr (Or.inr ht))
  · dsimp only
    rw [hmap]
    rw [hsplit] at htot
    simpa using htot
  · exact hws
  · dsimp only [freeSum]
    rw [hmap]
    rw [hR, freeSum, hsplit]
    simp only [List.cons_append, List.append_assoc, List.map_append,
      List.sum_append, List.map_cons, List.sum_cons]
    omega

/-- The final state of a `(true, false)` dealloc — freed slab removed
from the unlinked set and inserted at the freelist front as partial,
`refcnt` decremented — satisfies the full invariant; and the decrement
cannot underflow. -/
theorem invR_fromempty_front (N : Nat) (st : SizedSlabAlloc) (s : Slab)
    (u1 u2 : List Slab) (hInvR : SlabInvR N st)
    (hsplit : st.unlinked = u1 ++ s :: u2)
    (hn1 : s.id ∉ slabIds u1) (hn2 : s.id ∉ slabIds u2)
    (hz : s.free = 0) (hN2 : 1 < N) :
    SlabInvR N { st with
      unlinked := st.unlinked.eraseP (fun t => t.id == s.id),
      freelist := (⟨s.id, 1⟩ : Slab) :: st.freelist,
      refcnt := st.refcnt - 1 }
    ∧ 1 ≤ st.refcnt := by
  obtain ⟨⟨hpos, hpart, hnum, hunl, hnd, hlt, htot, hws⟩, hR⟩ := hInvR
  have her : st.unlinked.eraseP (fun t => t.id == s.id) = u1 ++ u2 := by
    rw [hsplit]
    exact eraseP_id_split u1 u2 s hn1
  have hfge : 1 ≤ st.refcnt := by
    rw [hR, freeSum, hsplit]
    simp only [List.map_append, List.sum_append, List.map_cons, List.sum_cons]
    omega
  refine ⟨⟨⟨?_, ?_, ?_, ?_, ?_, ?_, ?_, ?_⟩, ?_⟩, hfge⟩
  · intro t ht
    dsimp only at ht
    rcases List.mem_cons.mp ht with rfl | ht
    · exact ⟨by simp, by simp; omega⟩
    · exact hpos t ht
  · dsimp only
    rw [partition_iff_pairwise]
    exact pw_insert_front (by simp; omega)
      ((partition_iff_pairwise N st.freelist).mp hpart)
  · dsimp only
    rw [List.filter_cons_of_neg (by simp; omega)]
    exact hnum
  · intro t ht
    dsimp only at ht
    rw [her] at ht
    rcases List.mem_append.mp ht with ht | ht
    · exact hunl t (by rw [hsplit]; simp [ht])
    · exact hunl t (by rw [hsplit]; simp [ht])
  · dsimp only
    rw [her]
    have h0 : (slabIds st.freelist ++ (slabIds u1 ++ s.id :: slabIds u2)).Nodup := by
      rw [hsplit] at hnd
      simpa [slabIds] using hnd
    have h1 := nodup_insert_front h0
    simpa [slabIds] using h1
  · intro t ht
    dsimp only at ht
    rw [her] at ht
    rcases List.mem_append.mp ht with ht | ht
    · rcases List.mem_cons.mp ht with rfl | ht
      · exact hlt s (by rw [hsplit]; simp)
      · exact hlt t (by simp [ht])
    · rcases List.mem_append.mp ht with ht | ht
      · exact hlt t (by rw [hsplit]; simp [ht])
      · exact hlt t (by rw [hsplit]; simp [ht])
  · dsimp only
    rw [her]
    rw [hsplit] at htot
    simp only [List.length_append, List.length_cons] at htot ⊢
    omega
  · exact hws
  · dsimp only [freeSum]
    rw [her]
    rw [hR, freeSum, hsplit]
    simp only [List.cons_append, List.append_assoc, List.map_append,
      List.sum_append, List.map_cons, List.sum_cons]
    omega

/-- `dealloc` preserves the full invariant and decrements `refcnt` by
exactly one (no underflow). -/
theorem inv_dealloc (N now id : Nat) (st st' : SizedSlabAlloc)
    (rel : List Slab) (hN : 0 < N) (hInvR : SlabInvR N st)
    (h : SizedSlabAlloc.dealloc N now id st = some (st', rel)) :
    SlabInvR N st' ∧ st.refcnt = st'.refcnt + 1 := by
  obtain ⟨hInv, hR⟩ := hInvR
  obtain ⟨hpos, hpart, hnum, hunl, hnd, hlt, htot, hws⟩ := hInv
  obtain ⟨hndf, hndu, hdisj⟩ := List.nodup_append.mp hnd
  by_cases hmemf : ∃ s ∈ st.freelist, s.id = id
  · obtain ⟨s, hsmem, rfl⟩ := hmemf
    have hsp := hpos s hsmem
    obtain ⟨l1, l2, hsplit, hn1, hn2⟩ := mem_split_of_nodup hsmem hndf
    by_cases hfull : s.free + 1 = N
    · -- (false, true): move to back, then GC
      have hfs1 : freeSum N { st with
          freelist := (st.freelist.eraseP (fun t => t.id == s.id)) ++
            [⟨s.id, N⟩],
          num_full := st.num_full + 1 } + 1 = freeSum N st := by
        have her : st.freelist.eraseP (fun t => t.id == s.id) = l1 ++ l2 := by
          rw [hsplit]
          exact eraseP_id_split l1 l2 s hn1
        dsimp only [freeSum]
        rw [her, hsplit]
        simp only [List.cons_append, List.append_assoc, List.map_append,
          List.sum_append, List.map_cons, List.sum_cons, List.map_nil,
          List.sum_nil]
        omega
      have hge : 1 ≤ st.refcnt := by
        rw [hR, freeSum, hsplit]
        simp only [List.cons_append, List.append_assoc, List.map_append,
          List.sum_append, List.map_cons, List.sum_cons, List.map_nil,
          List.sum_nil]
        omega
      have hInv1 := inv_st1_movefull N st s l1 l2
        ⟨hpos, hpart, hnum, hunl, hnd, hlt, htot, hws⟩ hsplit hn1 hn2
        hsp.1 hfull
      cases hgc : garbage_collect_slabs now { st with
          freelist := (st.freelist.eraseP (fun t => t.id == s.id)) ++
            [⟨s.id, N⟩],
          num_full := st.num_full + 1 } with
      | none =>
        have := (dealloc_eq_movefull N now s.id st s hsmem rfl hndf hsp.1
          hfull).2 hgc
        rw [this] at h
        cases h
      | some pr =>
        obtain ⟨st2, rel2⟩ := pr
        have hde := (dealloc_eq_movefull N now s.id st s hsmem rfl hndf hsp.1
          hfull).1 st2 rel2 hgc
        rw [hde] at h
        injection h with h1
        injection h1 with h2 h3
        subst h2
        obtain ⟨hInv2, hrc2, hfs2, _, _⟩ := inv_gc N now _ st2 rel2 hInv1 hgc
        refine ⟨⟨hInv2, ?_⟩, ?_⟩
        · dsimp only at hrc2 ⊢
          show st2.refcnt - 1 = freeSum N st2
          omega
        · dsimp only at hrc2 ⊢
          omega
    · -- (false, false): in-place update (or trap on a full slab)
      have hlt2 : s.free + 1 < N := by
        rcases Nat.lt_or_ge (s.free + 1) N with h' | h'
        · exact h'
        · exfalso
          have hnone : SizedSlabAlloc.dealloc N now s.id st = none := by
            simp only [SizedSlabAlloc.dealloc, find?_id_of_mem hsmem hndf]
            rw [if_neg (by omega), if_neg (by omega), if_neg (by omega)]
          rw [hnone] at h
          cases h
      have hde := dealloc_eq_inplace N now s.id st s hsmem rfl hndf hsp.1 hlt2
      rw [hde] at h
      injection h with h1
      injection h1 with h2 h3
      subst h2
      obtain ⟨hInv', hge⟩ := invR_inplace N st s l1 l2
        ⟨⟨hpos, hpart, hnum, hunl, hnd, hlt, htot, hws⟩, hR⟩ hsplit hn1 hn2
        hsp.1 hlt2
      exact ⟨hInv', by dsimp only; omega⟩
  · have hnfl : id ∉ slabIds st.freelist := by
      intro hm
      simp only [slabIds, List.mem_map] at hm
      obtain ⟨t, htm, hte⟩ := hm
      exact hmemf ⟨t, htm, hte⟩
    by_cases hmemu : ∃ s ∈ st.unlinked, s.id = id
    · obtain ⟨s, hsmem, rfl⟩ := hmemu
      have hz : s.free = 0 := hunl s hsmem
      obtain ⟨u1, u2, hsplit, hn1, hn2⟩ := mem_split_of_nodup hsmem hndu
      by_cases hN1 : N = 1
      · subst hN1
        -- (true, true): insert at back, then GC
        have hfs1 : freeSum 1 { st with
            unlinked := st.unlinked.eraseP (fun t => t.id == s.id),
            freelist := st.freelist ++ [⟨s.id, 1⟩],
            num_full := st.num_full + 1 } + 1 = freeSum 1 st := by
          have her : st.unlinked.eraseP (fun t => t.id == s.id) = u1 ++ u2 := by
            rw [hsplit]
            exact eraseP_id_split u1 u2 s hn1
          dsimp only [freeSum]
          rw [her, hsplit]
          simp only [List.cons_append, List.append_assoc, List.map_append,
            List.sum_append, List.map_cons, List.sum_cons, List.map_nil,
            List.sum_nil]
          omega
        have hge : 1 ≤ st.refcnt := by
          rw [hR, freeSum, hsplit]
          simp only [List.cons_append, List.append_assoc, List.map_append,
            List.sum_append, List.map_cons, List.sum_cons, List.map_nil,
            List.sum_nil]
          omega
        have hInv1 := inv_st1_insback st s u1 u2
          ⟨hpos, hpart, hnum, hunl, hnd, hlt, htot, hws⟩ hsplit hn1 hn2 hz
        cases hgc : garbage_collect_slabs now { st with
            unlinked := st.unlinked.eraseP (fun t => t.id == s.id),
            freelist := st.freelist ++ [⟨s.id, 1⟩],
            num_full := st.num_full + 1 } with
        | none =>
          have := (dealloc_eq_fromempty_back now s.id st s hsmem rfl hnfl
            hndu hz).2 hgc
          rw [this] at h
          cases h
        | some pr =>
          obtain ⟨st2, rel2⟩ := pr
          have hde := (dealloc_eq_fromempty_back now s.id st s hsmem rfl hnfl
            hndu hz).1 st2 rel2 hgc
          rw [hde] at h
          injection h with h1
          injection h1 with h2 h3
          subst h2
          obtain ⟨hInv2, hrc2, hfs2, _, _⟩ := inv_gc 1 now _ st2 rel2 hInv1 hgc
          refine ⟨⟨hInv2, ?_⟩, ?_⟩
          · dsimp only at hrc2 ⊢
            show st2.refcnt - 1 = freeSum 1 st2
            omega
          · dsimp only at hrc2 ⊢
            omega
      · -- (true, false): insert at front
        have hN2 : 1 < N := by omega
        have hde := dealloc_eq_fromempty_front N now s.id st s hsmem rfl hnfl
          hndu hz hN2
        rw [hde] at h
        injection h with h1
        injection h1 with h2 h3
        subst h2
        obtain ⟨hInv', hge⟩ := invR_fromempty_front N st s u1 u2
          ⟨⟨hpos, hpart, hnum, hunl, hnd, hlt, htot, hws⟩, hR⟩ hsplit hn1 hn2
          hz hN2
        exact ⟨hInv', by dsimp only; omega⟩
    · have hnul : id ∉ slabIds st.unlinked := by
        intro hm
        simp only [slabIds, List.mem_map] at hm
        obtain ⟨t, htm, hte⟩ := hm
        exact hmemu ⟨t, htm, hte⟩
      rw [dealloc_eq_foreign N now id st hnfl hnul] at h
      cases h

/-- A freshly created sized slab allocator satisfies the full invariant. -/
theorem inv_new (N now0 : Nat) : SlabInvR N (SizedSlabAlloc.new now0) := by
  refine ⟨⟨?_, ?_, ?_, ?_, ?_, ?_, ?_, ?_⟩, ?_⟩ <;>
    simp [SizedSlabAlloc.new, slabIds, freeSum, WorkingSet.new]

/-- Successful `alloc` preserves the full invariant and increments
`refcnt` by exactly one. -/
theorem inv_alloc (N : Nat) (c : Bool) (st : SizedSlabAlloc) (hN : 0 < N)
    (hInvR : SlabInvR N st) :
    ∀ p st', SizedSlabAlloc.alloc N c st = .ok p st' →
      SlabInvR N st' ∧ st'.refcnt = st.refcnt + 1 := by
  intro p st' h
  cases hfl : st.freelist with
  | nil =>
    cases c with
    | false =>
      simp only [SizedSlabAlloc.alloc, hfl] at h
      cases h
    | true =>
      obtain ⟨⟨hpos, hpart, hnum, hunl, hnd, hlt, htot, hws⟩, hR⟩ := hInvR
      rw [hfl] at hpos hpart hnum hnd hlt htot
      rw [freeSum, hfl] at hR
      have hnum0 : st.num_full = 0 := by simpa using hnum
      have hInv1 : SlabInvR N { st with
          freelist := [(⟨st.nextId, N⟩ : Slab)],
          total_slabs := st.total_slabs + 1,
          num_full := st.num_full + 1,
          nextId := st.nextId + 1 } := by
        refine ⟨⟨?_, ?_, ?_, hunl, ?_, ?_, ?_, ?_⟩, ?_⟩
        · intro t ht
          have he : t = ⟨st.nextId, N⟩ := by simpa using ht
          subst he
          exact ⟨by simpa using hN, by simp⟩
        · dsimp only
          rw [partition_iff_pairwise]
          exact List.pairwise_singleton _ _
        · dsimp only
          rw [List.filter_cons_of_pos (by simp)]
          simp [hnum0]
        · dsimp only
          have hfree : st.nextId ∉ slabIds st.unlinked := by
            intro hm
            simp only [slabIds, List.mem_map] at hm
            obtain ⟨t, htm, hte⟩ := hm
            exact absurd (hte ▸ hlt t (by simp [htm])) (by omega)
          have hndu : (slabIds st.unlinked).Nodup := by simpa [slabIds] using hnd
          simpa [slabIds] using List.nodup_cons.mpr ⟨hfree, hndu⟩
        · intro t ht
          dsimp only at ht ⊢
          rcases List.mem_append.mp ht with ht | ht
          · have he : t = ⟨st.nextId, N⟩ := by simpa using ht
            subst he
            simp
          · have := hlt t (by simp [ht])
            omega
        · dsimp only
          simp only [List.length_nil] at htot
          simp
          omega
        · dsimp only
          omega
        · dsimp only [freeSum]
          simpa using hR
      have hfl1 : ({ st with
          freelist := [(⟨st.nextId, N⟩ : Slab)],
          total_slabs := st.total_slabs + 1,
          num_full := st.num_full + 1,
          nextId := st.nextId + 1 } : SizedSlabAlloc).freelist =
          (⟨st.nextId, N⟩ : Slab) :: [] := rfl
      have hstep := inv_allocBody N ⟨st.nextId, N⟩ [] _ hN hfl1 hInv1
      simp only [SizedSlabAlloc.alloc, hfl, if_pos rfl] at h
      injection h with hp hst
      rw [← hst]
      exact ⟨hstep.1, hstep.2⟩
  | cons s rest =>
    have hstep := inv_allocBody N s rest st hN hfl hInvR
    simp only [SizedSlabAlloc.alloc, hfl] at h
    injection h with hp hst
    rw [← hst]
    exact ⟨hstep.1, hstep.2⟩

/-- Every state reached by a trace of public operations from an invariant
state satisfies the invariant, and its `refcnt` balances the successful
allocations against the deallocations. -/
theorem inv_runTrace (N : Nat) (hN : 0 < N) :
    ∀ ops st fin a d, SlabInvR N st →
      runTrace N st ops = some (fin, a, d) →
      SlabInvR N fin ∧ d ≤ st.refcnt + a ∧ fin.refcnt + d = st.refcnt + a := by
  intro ops
  induction ops with
  | nil =>
    intro st fin a d hInv h
    simp only [runTrace] at h
    injection h with h1
    simp only [Prod.mk.injEq] at h1
    obtain ⟨rfl, rfl, rfl⟩ := h1
    exact ⟨hInv, by omega, by omega⟩
  | cons op ops ih =>
    intro st fin a d hInv h
    cases op with
    | alloc c =>
      cases hal : SizedSlabAlloc.alloc N c st with
      | ok p st1 =>
        simp only [runTrace, hal] at h
        cases hrun : runTrace N st1 ops with
        | none =>
          rw [hrun] at h
          cases h
        | some r =>
          obtain ⟨fin1, a1, d1⟩ := r
          rw [hrun] at h
          injection h with h1
          simp only [Prod.mk.injEq] at h1
          obtain ⟨rfl, rfl, rfl⟩ := h1
          obtain ⟨hInv1, hrc⟩ := inv_alloc N c st hN hInv p st1 hal
          obtain ⟨hfin, hle, heq⟩ := ih st1 fin1 a1 d1 hInv1 hrun
          exact ⟨hfin, by omega, by omega⟩
      | exhausted st0 =>
        simp only [runTrace, hal] at h
        exact ih st fin a d hInv h
    | dealloc now idd =>
      cases hd : SizedSlabAlloc.dealloc N now idd st with
      | none =>
        simp only [runTrace, hd] at h
        cases h
      | some pr =>
        obtain ⟨st1, rel⟩ := pr
        simp only [runTrace, hd] at h
        cases hrun : runTrace N st1 ops with
        | none =>
          rw [hrun] at h
          cases h
        | some r =>
          obtain ⟨fin1, a1, d1⟩ := r
          rw [hrun] at h
          injection h with h1
          simp only [Prod.mk.injEq] at h1
          obtain ⟨rfl, rfl, rfl⟩ := h1
          obtain ⟨hInv1, hrc⟩ := inv_dealloc N now idd st st1 rel hN hInv hd
          obtain ⟨hfin, hle, heq⟩ := ih st1 fin1 a1 d1 hInv1 hrun
          exact ⟨hfin, by omega, by omega⟩

/-- Claim C1: on every `dealloc`, the slab containing the freed object is
re-linked exactly according to the `(was_empty_before, is_full_now)`
table: `(false, false)` leaves the freelist unchanged (the slab stays in
place), `(false, true)` moves the slab to the back of the freelist,
`(true, false)` inserts the previously unlinked slab at the front, and
`(true, true)` (reachable only for `N = 1`) inserts it at the back.  (In
the two `is_full_now` cases the statement is read before reclamation: the
working-set window is assumed not to have elapsed, so the reclamation
that `dealloc` then triggers removes nothing.) -/
theorem dealloc_relink_table (N now id : Nat) (st : SizedSlabAlloc)
    (hN : 0 < N) (hInv : SlabInvR N st) :
    (∀ s, s ∈ st.freelist → s.id = id →
      (s.free + 1 < N →
        ∃ st', SizedSlabAlloc.dealloc N now id st = some (st', []) ∧
          slabIds st'.freelist = slabIds st.freelist)
      ∧ (s.free + 1 = N →
          now < st.full_slab_working_set.windowStart + WORKING_PERIOD_SECONDS →
        ∃ st', SizedSlabAlloc.dealloc N now id st = some (st', []) ∧
          st'.freelist =
            (st.freelist.eraseP (fun t => t.id == id)) ++ [⟨id, N⟩]))
    ∧ (∀ s, s ∈ st.unlinked → s.id = id →
      (1 < N →
        ∃ st', SizedSlabAlloc.dealloc N now id st = some (st', []) ∧
          st'.freelist = ⟨id, 1⟩ :: st.freelist)
      ∧ (N = 1 →
          now < st.full_slab_working_set.windowStart + WORKING_PERIOD_SECONDS →
        ∃ st', SizedSlabAlloc.dealloc N now id st = some (st', []) ∧
          st'.freelist = st.freelist ++ [⟨id, 1⟩])) := by
  obtain ⟨⟨hpos, hpart, hnum, hunl, hnd, hlt, htot, hws⟩, hR⟩ := hInv
  obtain ⟨hndf, hndu, hdisj⟩ := List.nodup_append.mp hnd
  constructor
  · intro s hsmem hsid
    subst hsid
    have hsp := hpos s hsmem
    constructor
    · intro hlt2
      refine ⟨_, dealloc_eq_inplace N now s.id st s hsmem rfl hndf hsp.1 hlt2,
        ?_⟩
      obtain ⟨l1, l2, hsplit, hn1, hn2⟩ := mem_split_of_nodup hsmem hndf
      dsimp only
      rw [hsplit, map_update_id_split l1 l2 s (s.free + 1) hn1 hn2]
      simp [slabIds]
    · intro hfull hwin
      have hr1 : WorkingSet.refresh st.full_slab_working_set
          WORKING_PERIOD_SECONDS now = (none, st.full_slab_working_set) := by
        rw [WorkingSet.refresh, if_neg (by omega)]
      have hgc := gc_none now { st with
          freelist := (st.freelist.eraseP (fun t => t.id == s.id)) ++
            [⟨s.id, N⟩],
          num_full := st.num_full + 1 } st.full_slab_working_set hr1
      refine ⟨_, (dealloc_eq_movefull N now s.id st s hsmem rfl hndf hsp.1
        hfull).1 _ [] hgc, rfl⟩
  · intro s hsmem hsid
    subst hsid
    have hz : s.free = 0 := hunl s hsmem
    have hnfl : s.id ∉ slabIds st.freelist := by
      intro hm
      exact hdisj hm (by simp [slabIds]; exact ⟨s, hsmem, rfl⟩)
    constructor
    · intro hN2
      exact ⟨_, dealloc_eq_fromempty_front N now s.id st s hsmem rfl hnfl
        hndu hz hN2, rfl⟩
    · intro hN1 hwin
      subst hN1
      have hr1 : WorkingSet.refresh st.full_slab_working_set
          WORKING_PERIOD_SECONDS now = (none, st.full_slab_working_set) := by
        rw [WorkingSet.refresh, if_neg (by omega)]
      have hgc := gc_none now { st with
          unlinked := st.unlinked.eraseP (fun t => t.id == s.id),
          freelist := st.freelist ++ [⟨s.id, 1⟩],
          num_full := st.num_full + 1 } st.full_slab_working_set hr1
      refine ⟨_, (dealloc_eq_fromempty_back now s.id st s hsmem rfl hnfl
        hndu hz).1 _ [] hgc, rfl⟩

/-- Witness for C1: a `dealloc` that fills its slab moves that slab to
the back of the freelist, and a `dealloc` into an empty (unlinked) slab
re-inserts it at the front. -/
theorem dealloc_relink_table_witness :
    (∃ st', SizedSlabAlloc.dealloc 8 3 0
        ⟨[⟨0, 7⟩, ⟨1, 3⟩], [], 2, 0, 6, ⟨0, 0⟩, 2⟩ = some (st', []) ∧
      st'.freelist = (([⟨0, 7⟩, ⟨1, 3⟩] : List Slab).eraseP
        (fun t => t.id == 0)) ++ [⟨0, 8⟩])
    ∧ (∃ st', SizedSlabAlloc.dealloc 8 3 1
        ⟨[⟨0, 7⟩], [⟨1, 0⟩], 2, 0, 9, ⟨0, 0⟩, 2⟩ = some (st', []) ∧
      st'.freelist = ⟨1, 1⟩ :: [⟨0, 7⟩]) :=
  ⟨((dealloc_relink_table 8 3 0 ⟨[⟨0, 7⟩, ⟨1, 3⟩], [], 2, 0, 6, ⟨0, 0⟩, 2⟩
      (by decide) (by decide)).1 ⟨0, 7⟩ (by decide) rfl).2 (by decide)
      (by decide),
   ((dealloc_relink_table 8 3 1 ⟨[⟨0, 7⟩], [⟨1, 0⟩], 2, 0, 9, ⟨0, 0⟩, 2⟩
      (by decide) (by decide)).2 ⟨1, 0⟩ (by decide) rfl).1 (by decide)⟩

/-- Claim C3: `garbage_collect_slabs` is invoked by exactly those
`dealloc` calls whose freed slab is fully free afterwards — both for
slabs freed out of the freelist (`was_empty = false`, parts 3) and for
previously empty, unlinked slabs (`was_empty = true`, part 4, where only
the `N = 1` free can fill the slab); in the not-full cases the working
set is untouched and nothing is released.  When the invoked `refresh`
closes a window yielding `min_full`, reclamation removes exactly
`min_full` slabs from the freelist tail, returns each to the slab
family, decrements `num_full` and `total_slabs` by exactly `min_full`
and reseeds the working set with the resulting `num_full` (part 1); when
`refresh` yields nothing, the state other than the working set is
unchanged (part 2). -/
theorem gc_invoked_and_releases (N now : Nat) (st : SizedSlabAlloc)
    (hN : 0 < N) (hInv : SlabInvR N st) :
    (∀ m ws', st.full_slab_working_set.refresh WORKING_PERIOD_SECONDS now =
        (some m, ws') →
      ∃ kept dropped, st.freelist = kept ++ dropped ∧ dropped.length = m ∧
        garbage_collect_slabs now st = some
          ({ st with freelist := kept,
                     total_slabs := st.total_slabs - m,
                     num_full := st.num_full - m,
                     full_slab_working_set :=
                       WorkingSet.set ws' (st.num_full - m) now },
            dropped.reverse))
    ∧ (∀ ws', st.full_slab_working_set.refresh WORKING_PERIOD_SECONDS now =
        (none, ws') →
      garbage_collect_slabs now st = some (st, []))
    ∧ (∀ id s, s ∈ st.freelist → s.id = id →
      (s.free + 1 < N →
        ∃ st', SizedSlabAlloc.dealloc N now id st = some (st', []) ∧
          st'.full_slab_working_set = st.full_slab_working_set)
      ∧ (s.free + 1 = N →
        ∃ st2 rel, garbage_collect_slabs now
            { st with
              freelist :=
                (st.freelist.eraseP (fun t => t.id == id)) ++ [⟨id, N⟩],
              num_full := st.num_full + 1 } = some (st2, rel) ∧
          SizedSlabAlloc.dealloc N now id st =
            some ({ st2 with refcnt := st2.refcnt - 1 }, rel)))
    ∧ (∀ id s, s ∈ st.unlinked → s.id = id →
      (1 < N →
        ∃ st', SizedSlabAlloc.dealloc N now id st = some (st', []) ∧
          st'.full_slab_working_set = st.full_slab_working_set)
      ∧ (N = 1 →
        ∃ st2 rel, garbage_collect_slabs now
            { st with
              unlinked := st.unlinked.eraseP (fun t => t.id == id),
              freelist := st.freelist ++ [⟨id, 1⟩],
              num_full := st.num_full + 1 } = some (st2, rel) ∧
          SizedSlabAlloc.dealloc N now id st =
            some ({ st2 with refcnt := st2.refcnt - 1 }, rel))) := by
  obtain ⟨hSI, hR⟩ := hInv
  obtain ⟨hpos, hpart, hnum, hunl, hnd, hlt, htot, hws⟩ := hSI
  obtain ⟨hndf, hndu, hdisj⟩ := List.nodup_append.mp hnd
  refine ⟨?_, ?_, ?_, ?_⟩
  · intro m ws' hr
    obtain ⟨kept, dropped, hfl, hlen, _, _, _, _, _, _, hgceq⟩ :=
      (gc_spec N now st ⟨hpos, hpart, hnum, hunl, hnd, hlt, htot, hws⟩).2
        m ws' hr
    exact ⟨kept, dropped, hfl, hlen, hgceq⟩
  · intro ws' hr
    exact gc_none now st ws' hr
  · intro id s hsmem hsid
    subst hsid
    have hsp := hpos s hsmem
    constructor
    · intro hlt2
      refine ⟨_, dealloc_eq_inplace N now s.id st s hsmem rfl hndf hsp.1
        hlt2, rfl⟩
    · intro hfull
      have hInv1 := inv_st1_movefull N st s _ _
        ⟨hpos, hpart, hnum, hunl, hnd, hlt, htot, hws⟩
        (mem_split_of_nodup hsmem hndf).choose_spec.choose_spec.1
        (mem_split_of_nodup hsmem hndf).choose_spec.choose_spec.2.1
        (mem_split_of_nodup hsmem hndf).choose_spec.choose_spec.2.2
        hsp.1 hfull
      rcases hr1 : WorkingSet.refresh (st.full_slab_working_set)
          WORKING_PERIOD_SECONDS now with ⟨o, ws1⟩
      cases o with
      | none =>
        have hgc := gc_none now { st with
            freelist := (st.freelist.eraseP (fun t => t.id == s.id)) ++
              [⟨s.id, N⟩],
            num_full := st.num_full + 1 } ws1 hr1
        exact ⟨_, [], hgc, (dealloc_eq_movefull N now s.id st s hsmem rfl
          hndf hsp.1 hfull).1 _ [] hgc⟩
      | some m =>
        obtain ⟨kept, dropped, _, _, _, _, _, _, _, _, hgceq⟩ :=
          (gc_spec N now _ hInv1).2 m ws1 hr1
        exact ⟨_, dropped.reverse, hgceq, (dealloc_eq_movefull N now s.id st
          s hsmem rfl hndf hsp.1 hfull).1 _ _ hgceq⟩
  · intro id s hsmem hsid
    subst hsid
    have hz : s.free = 0 := hunl s hsmem
    have hnfl : s.id ∉ slabIds st.freelist := by
      intro hm
      exact hdisj hm (by simp [slabIds]; exact ⟨s, hsmem, rfl⟩)
    constructor
    · intro hN2
      exact ⟨_, dealloc_eq_fromempty_front N now s.id st s hsmem rfl hnfl
        hndu hz hN2, rfl⟩
    · intro hN1
      subst hN1
      have hInv1 := inv_st1_insback st s _ _
        ⟨hpos, hpart, hnum, hunl, hnd, hlt, htot, hws⟩
        (mem_split_of_nodup hsmem hndu).choose_spec.choose_spec.1
        (mem_split_of_nodup hsmem hndu).choose_spec.choose_spec.2.1
        (mem_split_of_nodup hsmem hndu).choose_spec.choose_spec.2.2
        hz
      rcases hr1 : WorkingSet.refresh (st.full_slab_working_set)
          WORKING_PERIOD_SECONDS now with ⟨o, ws1⟩
      cases o with
      | none =>
        have hgc := gc_none now { st with
            unlinked := st.unlinked.eraseP (fun t => t.id == s.id),
            freelist := st.freelist ++ [⟨s.id, 1⟩],
            num_full := st.num_full + 1 } ws1 hr1
        exact ⟨_, [], hgc, (dealloc_eq_fromempty_back now s.id st s hsmem
          rfl hnfl hndu hz).1 _ [] hgc⟩
      | some m =>
        obtain ⟨kept, dropped, _, _, _, _, _, _, _, _, hgceq⟩ :=
          (gc_spec 1 now _ hInv1).2 m ws1 hr1
        exact ⟨_, dropped.reverse, hgceq, (dealloc_eq_fromempty_back now
          s.id st s hsmem rfl hnfl hndu hz).1 _ _ hgceq⟩

/-- Witness for C3: with a one-slab fully-free freelist and an elapsed
window whose minimum is 1, reclamation removes exactly that slab, zeroes
the counters and reseeds the working set; and a dealloc into an empty
slab that stays partial (`N = 8`) runs without invoking reclamation (the
working set is untouched and nothing is released). -/
theorem gc_invoked_and_releases_witness :
    (∃ st', SizedSlabAlloc.dealloc 8 3 1
        ⟨[⟨0, 7⟩], [⟨1, 0⟩], 2, 0, 9, ⟨0, 0⟩, 2⟩ = some (st', []) ∧
      st'.full_slab_working_set = (⟨0, 0⟩ : WorkingSet)) ∧
    ∃ kept dropped,
      (⟨[⟨0, 8⟩], [], 1, 1, 0, ⟨1, 0⟩, 1⟩ : SizedSlabAlloc).freelist =
        kept ++ dropped ∧ dropped.length = 1 ∧
      garbage_collect_slabs 15 ⟨[⟨0, 8⟩], [], 1, 1, 0, ⟨1, 0⟩, 1⟩ = some
        ({ (⟨[⟨0, 8⟩], [], 1, 1, 0, ⟨1, 0⟩, 1⟩ : SizedSlabAlloc) with
            freelist := kept,
            total_slabs :=
              (⟨[⟨0, 8⟩], [], 1, 1, 0, ⟨1, 0⟩, 1⟩ : SizedSlabAlloc).total_slabs
                - 1,
            num_full :=
              (⟨[⟨0, 8⟩], [], 1, 1, 0, ⟨1, 0⟩, 1⟩ : SizedSlabAlloc).num_full
                - 1,
            full_slab_working_set := WorkingSet.set ⟨1, 15⟩
              ((⟨[⟨0, 8⟩], [], 1, 1, 0, ⟨1, 0⟩, 1⟩ : SizedSlabAlloc).num_full
                - 1) 15 },
          dropped.reverse) :=
  ⟨((gc_invoked_and_releases 8 3 ⟨[⟨0, 7⟩], [⟨1, 0⟩], 2, 0, 9, ⟨0, 0⟩, 2⟩
      (by decide) (by decide)).2.2.2 1 ⟨1, 0⟩ (by decide) rfl).1 (by decide),
   (gc_invoked_and_releases 8 15 ⟨[⟨0, 8⟩], [], 1, 1, 0, ⟨1, 0⟩, 1⟩
     (by decide) (by decide)).1 1 ⟨1, 15⟩ (by decide)⟩

/-- Claim C2: after every public operation of the sized slab allocator —
any trace of `alloc` calls (successful or exhausted) and well-formed
`dealloc` calls from a fresh allocator, including any reclamation they
trigger — the counter `num_full` equals the number of slabs in the
freelist whose free count equals the objects-per-slab capacity `N`. -/
theorem num_full_counts_full_slabs (N now0 : Nat) (ops : List Op)
    (fin : SizedSlabAlloc) (a d : Nat) (hN : 0 < N)
    (h : runTrace N (SizedSlabAlloc.new now0) ops = some (fin, a, d)) :
    fin.num_full = (fin.freelist.filter (fun s => s.free == N)).length := by
  obtain ⟨⟨⟨_, _, hnum, _⟩, _⟩, _⟩ :=
    inv_runTrace N hN ops _ fin a d (inv_new N now0) h
  exact hnum

/-- Witness for C2: a trace with two allocations, a partial free, and a
slab-filling free that triggers reclamation, ending with one fully-free
slab and `num_full = 1`. -/
theorem num_full_counts_full_slabs_witness :
    runTrace 8 (SizedSlabAlloc.new 0) [Op.alloc true, Op.alloc true,
        Op.dealloc 0 0, Op.dealloc 20 0] =
      some (⟨[⟨0, 8⟩], [], 1, 1, 0, ⟨1, 20⟩, 1⟩, 2, 2) ∧
    (⟨[⟨0, 8⟩], [], 1, 1, 0, ⟨1, 20⟩, 1⟩ : SizedSlabAlloc).num_full =
      ((⟨[⟨0, 8⟩], [], 1, 1, 0, ⟨1, 20⟩, 1⟩ : SizedSlabAlloc).freelist.filter
        (fun s => s.free == 8)).length :=
  ⟨by decide,
   num_full_counts_full_slabs 8 0 [Op.alloc true, Op.alloc true,
     Op.dealloc 0 0, Op.dealloc 20 0] ⟨[⟨0, 8⟩], [], 1, 1, 0, ⟨1, 20⟩, 1⟩ 2 2
     (by decide) (by decide)⟩

/-- Claim C6: every successful `alloc` increments `refcnt` by exactly
one, an `alloc` returning `Exhausted` leaves it unchanged, every
`dealloc` decrements it by exactly one, and hence after any sequence of
operations starting from a new allocator, `refcnt` equals the number of
objects currently handed out (successful allocations minus
deallocations). -/
theorem refcnt_counts_outstanding :
    (∀ (N : Nat) (c : Bool) (st : SizedSlabAlloc) (p : Nat)
        (st' : SizedSlabAlloc), SizedSlabAlloc.alloc N c st = .ok p st' →
      st'.refcnt = st.refcnt + 1)
    ∧ (∀ (N : Nat) (c : Bool) (st st0 : SizedSlabAlloc),
        SizedSlabAlloc.alloc N c st = .exhausted st0 →
      st0.refcnt = st.refcnt)
    ∧ (∀ (N now id : Nat) (st st' : SizedSlabAlloc) (rel : List Slab),
        0 < N → SlabInvR N st →
        SizedSlabAlloc.dealloc N now id st = some (st', rel) →
      st.refcnt = st'.refcnt + 1)
    ∧ (∀ (N now0 : Nat) (ops : List Op) (fin : SizedSlabAlloc) (a d : Nat),
        0 < N → runTrace N (SizedSlabAlloc.new now0) ops = some (fin, a, d) →
      d ≤ a ∧ fin.refcnt = a - d) := by
  refine ⟨?_, ?_, ?_, ?_⟩
  · intro N c st p st' h
    cases hfl : st.freelist with
    | nil =>
      cases c with
      | false =>
        simp only [SizedSlabAlloc.alloc, hfl] at h
        cases h
      | true =>
        simp only [SizedSlabAlloc.alloc, hfl] at h
        injection h with hp hst
        rw [← hst]
        rfl
    | cons s rest =>
      simp only [SizedSlabAlloc.alloc, hfl] at h
      injection h with hp hst
      rw [← hst]
      rfl
  · intro N c st st0 h
    cases hfl : st.freelist with
    | nil =>
      cases c with
      | false =>
        simp only [SizedSlabAlloc.alloc, hfl] at h
        injection h with h1
        rw [← h1]
      | true =>
        simp only [SizedSlabAlloc.alloc, hfl] at h
        cases h
    | cons s rest =>
      simp only [SizedSlabAlloc.alloc, hfl] at h
      cases h
  · intro N now id st st' rel hN hInv h
    exact (inv_dealloc N now id st st' rel hN hInv h).2
  · intro N now0 ops fin a d hN h
    obtain ⟨_, hle, heq⟩ := inv_runTrace N hN ops _ fin a d (inv_new N now0) h
    simp only [SizedSlabAlloc.new] at hle heq
    exact ⟨by omega, by omega⟩

/-- Witness for C6: on the concrete trace of the C2 witness the final
`refcnt` is the number of successful allocations minus deallocations,
and a single successful allocation bumps `refcnt` from 0 to 1. -/
theorem refcnt_counts_outstanding_witness :
    ((2 : Nat) ≤ 2 ∧
      (⟨[⟨0, 8⟩], [], 1, 1, 0, ⟨1, 20⟩, 1⟩ : SizedSlabAlloc).refcnt = 2 - 2)
    ∧ (⟨[⟨0, 7⟩], [], 1, 0, 1, ⟨0, 0⟩, 1⟩ : SizedSlabAlloc).refcnt =
      (SizedSlabAlloc.new 0).refcnt + 1 :=
  ⟨refcnt_counts_outstanding.2.2.2 8 0 [Op.alloc true, Op.alloc true,
      Op.dealloc 0 0, Op.dealloc 20 0] ⟨[⟨0, 8⟩], [], 1, 1, 0, ⟨1, 20⟩, 1⟩ 2 2
      (by decide) (by decide),
   refcnt_counts_outstanding.1 8 true (SizedSlabAlloc.new 0) 0
      ⟨[⟨0, 7⟩], [], 1, 0, 1, ⟨0, 0⟩, 1⟩ (by decide)⟩

/-- Claim C10: whenever `garbage_collect_slabs` runs on an invariant
state and `refresh` yields a window minimum `min_full`, that `min_full`
is at most the current `num_full` (every decrement of `num_full` during
`alloc` is reported through `update_min` and every window is seeded with
the then-current `num_full`, facts maintained by the invariant), so each
of the `min_full` remove-from-tail steps finds a nonempty freelist whose
tail is a fully-free slab, and the decrements of `num_full` and
`total_slabs` never underflow. -/
theorem gc_min_full_bounded (N now : Nat) (st : SizedSlabAlloc) (m : Nat)
    (ws' : WorkingSet) (hInv : SlabInvR N st)
    (hr : st.full_slab_working_set.refresh WORKING_PERIOD_SECONDS now =
      (some m, ws')) :
    m ≤ st.num_full ∧ st.num_full ≤ st.freelist.length ∧
    m ≤ st.total_slabs ∧
    ∃ st' rel, garbage_collect_slabs now st = some (st', rel) ∧
      rel.length = m ∧ (∀ s ∈ rel, s.free = N) ∧
      st'.num_full + m = st.num_full ∧ st'.total_slabs + m = st.total_slabs := by
  obtain ⟨kept, dropped, hfl, hlen, hfull, _, _, hm_nf, hnf_len, hm_tot,
    hgceq⟩ := (gc_spec N now st hInv.1).2 m ws' hr
  refine ⟨hm_nf, hnf_len, hm_tot, _, dropped.reverse, hgceq, ?_, ?_, ?_, ?_⟩
  · simpa using hlen
  · intro s hs
    exact hfull s (List.mem_reverse.mp hs)
  · dsimp only
    omega
  · dsimp only
    omega

/-- Witness for C10: with one fully-free slab, `num_full = 1` and window
minimum 1, reclamation succeeds, releasing exactly one fully-free slab
with both counters landing at 0. -/
theorem gc_min_full_bounded_witness :
    (1 : Nat) ≤
      (⟨[⟨0, 8⟩], [], 1, 1, 0, ⟨1, 0⟩, 1⟩ : SizedSlabAlloc).num_full ∧
    (⟨[⟨0, 8⟩], [], 1, 1, 0, ⟨1, 0⟩, 1⟩ : SizedSlabAlloc).num_full ≤
      (⟨[⟨0, 8⟩], [], 1, 1, 0, ⟨1, 0⟩, 1⟩ : SizedSlabAlloc).freelist.length ∧
    (1 : Nat) ≤
      (⟨[⟨0, 8⟩], [], 1, 1, 0, ⟨1, 0⟩, 1⟩ : SizedSlabAlloc).total_slabs ∧
    ∃ st' rel, garbage_collect_slabs 15 ⟨[⟨0, 8⟩], [], 1, 1, 0, ⟨1, 0⟩, 1⟩ =
        some (st', rel) ∧ rel.length = 1 ∧ (∀ s ∈ rel, s.free = 8) ∧
      st'.num_full + 1 =
        (⟨[⟨0, 8⟩], [], 1, 1, 0, ⟨1, 0⟩, 1⟩ : SizedSlabAlloc).num_full ∧
      st'.total_slabs + 1 =
        (⟨[⟨0, 8⟩], [], 1, 1, 0, ⟨1, 0⟩, 1⟩ : SizedSlabAlloc).total_slabs :=
  gc_min_full_bounded 8 15 ⟨[⟨0, 8⟩], [], 1, 1, 0, ⟨1, 0⟩, 1⟩ 1 ⟨1, 15⟩
    (by decide) (by decide)
